import Mathlib

/-!
Shallow embedding of the t3rn Circuit pallet (`pallets/circuit/src/lib.rs`):
the Xtx lifecycle engine.  Storage maps are modelled as association lists,
machine balances and block numbers as `Nat`, and the externally provided
collaborators (XDNS name service, portal, side-effects protocol, account
manager) as oracle fields of an `Env` record.  Rust panics (out-of-bounds
indexing, `unwrap`, `expect`) are modelled by the `ExecError.crash`
constructor, typed dispatch errors by `ExecError.err`.

Types that live in sibling crates of the repository that are not available
here (`state.rs`, `t3rn-primitives`, `t3rn-protocol`) are modelled from the
specification; each such definition carries a doc comment starting with
`Modelled from the spec:`.
-/

namespace Circuit

/-- Modelled from the spec: the `SecurityLvl` enum of `t3rn-primitives`
(not under `src/`).  §4.D of the spec orders the levels so that `Escrowed`
and `Optimistic` sort before `Dirty` under the descending sort of
`validate`, i.e. `Dirty < Optimistic < Escrowed` in the derived order. -/
inductive SecurityLvl where
  | Dirty
  | Optimistic
  | Escrowed
deriving DecidableEq, Repr

/-- Numeric rank realising the derived `Ord` of `SecurityLvl`. -/
def SecurityLvl.rank : SecurityLvl → Nat
  | .Dirty => 0
  | .Optimistic => 1
  | .Escrowed => 2

/-- Modelled from the spec: the `CircuitStatus` enum of `state.rs` (not under
`src/`).  §4.B: `Requested < PendingInsurance < Bonded < Ready <
PendingExecution < Finished < FinishedAllSteps`, with the sink states
`RevertTimedOut`, `RevertMisbehaviour`, `Reverted`, `RevertKill`. -/
inductive CircuitStatus where
  | Requested
  | PendingInsurance
  | Bonded
  | Ready
  | PendingExecution
  | Finished
  | FinishedAllSteps
  | RevertTimedOut
  | RevertMisbehaviour
  | Reverted
  | RevertKill
deriving DecidableEq, Repr

/-- Numeric rank realising the derived order of `CircuitStatus` used by the
comparisons `xtx.status < CircuitStatus::Finished` (setup) and
`status > CircuitStatus::Ready` (apply). -/
def CircuitStatus.rank : CircuitStatus → Nat
  | .Requested => 0
  | .PendingInsurance => 1
  | .Bonded => 2
  | .Ready => 3
  | .PendingExecution => 4
  | .Finished => 5
  | .FinishedAllSteps => 6
  | .RevertTimedOut => 7
  | .RevertMisbehaviour => 8
  | .Reverted => 9
  | .RevertKill => 10

/-- A user-submitted side effect.  `target` is the 4-byte gateway id,
`prize` the declared reward, `encoded_action` the 4-byte action selector.
`optional_insurance` models the `(insurance, reward)` pair that
`UniversalSideEffectsProtocol::check_if_insurance_required` (external
`t3rn-protocol` crate, not under `src/`) extracts from the encoded
arguments; `nonce` stands for the remaining argument payload so that
distinct submissions are distinct values. -/
structure SideEffect where
  target : Nat
  prize : Nat
  encoded_action : Nat
  optional_insurance : Option (Nat × Nat)
  nonce : Nat
deriving DecidableEq, Repr

/-- Side effect ids are content addressed (`generate_id` hashes the codec
encoding).  The hash is modelled as the canonical content itself, keeping
the id injective as the spec's §4.A requires. -/
abbrev SideEffectId := SideEffect

/-- Model of `SideEffect::generate_id::<SystemHashing<T>>`. -/
def SideEffect.generate_id (s : SideEffect) : SideEffectId := s

/-- The confirmation payload attached to a side effect
(`ConfirmedSideEffect` of `t3rn-primitives`); only the fields the circuit
reads are modelled. -/
structure ConfirmedSideEffect where
  executioner : Nat
  cost : Nat
  inclusion_data : Nat
deriving DecidableEq, Repr

/-- `FullSideEffect` of `t3rn-primitives`: an admitted side effect plus its
runtime metadata. -/
structure FullSideEffect where
  input : SideEffect
  confirmed : Option ConfirmedSideEffect
  security_lvl : SecurityLvl
  submission_target_height : Nat
deriving DecidableEq, Repr

/-- Modelled from the spec: `InsuranceDeposit` of `state.rs` (not under
`src/`).  §3: required bond, required reward, bonded amount, bonder
account, requester and the block it was requested at; `bonder = none`
means the deposit is still unbonded. -/
structure InsuranceDeposit where
  insurance : Nat
  reward : Nat
  bonded_amount : Nat
  bonder : Option Nat
  requester : Nat
  requested_at : Nat
deriving DecidableEq, Repr

/-- `XExecSignal` of `t3rn-primitives`: the per-Xtx record stored in
`XExecSignals`.  `steps_cnt = (cursor, total)`. -/
structure XExecSignal where
  requester : Nat
  timeouts_at : Nat
  delay_steps_at : Option (List Nat)
  status : CircuitStatus
  steps_cnt : Nat × Nat
  total_reward : Option Nat
deriving DecidableEq, Repr

/-- `SignalKind` of `t3rn-sdk-primitives` (`Kill`'s reason payload is
dropped). -/
inductive SignalKind where
  | Complete
  | Kill
deriving DecidableEq, Repr

/-- `ExecutionSignal` of `t3rn-sdk-primitives`. -/
structure ExecutionSignal where
  kind : SignalKind
  execution_id : Nat
deriving DecidableEq, Repr

/-- The opaque `LocalState` scratchpad; the circuit never inspects it. -/
abbrev LocalState := Nat

/-- Errors and panics of an entry point.  `err` models a typed dispatch
error (`Error<T>` or an `&'static str`), `crash` models a Rust panic
(out-of-bounds indexing, `unwrap`, `expect`, `unimplemented!`). -/
inductive ExecError where
  | err (msg : String)
  | crash (msg : String)
deriving DecidableEq, Repr

instance instDecEqExcept {ε α : Type} [DecidableEq ε] [DecidableEq α] :
    DecidableEq (Except ε α) := fun x y =>
  match x, y with
  | .ok a, .ok b =>
      if h : a = b then .isTrue (by rw [h])
      else .isFalse (by intro hh; cases hh; exact h rfl)
  | .ok _, .error _ => .isFalse (by intro hh; cases hh)
  | .error _, .ok _ => .isFalse (by intro hh; cases hh)
  | .error e, .error f =>
      if h : e = f then .isTrue (by rw [h])
      else .isFalse (by intro hh; cases hh; exact h rfl)

section AssocList

variable {κ ν : Type} [DecidableEq κ]

/-- Lookup in an association list (model of `StorageMap::get`). -/
def lookupKV : List (κ × ν) → κ → Option ν
  | [], _ => none
  | (k', v) :: t, k => if k' = k then some v else lookupKV t k

/-- Lookup with a default (model of a `ValueQuery` storage map). -/
def lookupD (l : List (κ × ν)) (k : κ) (d : ν) : ν :=
  (lookupKV l k).getD d

/-- Insert-or-overwrite (model of `StorageMap::insert` / `mutate` to
`Some`); keeps the position of an existing key. -/
def insertKV : List (κ × ν) → κ → ν → List (κ × ν)
  | [], k, v => [(k, v)]
  | (k', v') :: t, k, v =>
      if k' = k then (k, v) :: t else (k', v') :: insertKV t k v

/-- Remove a key (model of `StorageMap::remove`). -/
def removeKV : List (κ × ν) → κ → List (κ × ν)
  | [], _ => []
  | (k', v') :: t, k =>
      if k' = k then removeKV t k else (k', v') :: removeKV t k

theorem lookupKV_insertKV_self (l : List (κ × ν)) (k : κ) (v : ν) :
    lookupKV (insertKV l k v) k = some v := by
  induction l with
  | nil => simp [insertKV, lookupKV]
  | cons h t ih =>
      obtain ⟨k', v'⟩ := h
      by_cases hk : k' = k <;> simp [insertKV, lookupKV, hk, ih]

theorem lookupKV_insertKV_ne (l : List (κ × ν)) {k k' : κ} (v : ν)
    (h : k ≠ k') : lookupKV (insertKV l k v) k' = lookupKV l k' := by
  induction l with
  | nil => simp [insertKV, lookupKV, h]
  | cons hd t ih =>
      obtain ⟨k₀, v₀⟩ := hd
      by_cases hk : k₀ = k
      · subst hk
        simp [insertKV, lookupKV, h]
      · simp [insertKV, lookupKV, hk, ih]

theorem mem_removeKV_of_ne {l : List (κ × ν)} {k : κ} {e : κ × ν}
    (he : e ∈ l) (h : e.1 ≠ k) : e ∈ removeKV l k := by
  induction l with
  | nil => cases he
  | cons hd t ih =>
      obtain ⟨k₀, v₀⟩ := hd
      by_cases hk : k₀ = k
      · rcases List.mem_cons.mp he with he₁ | he₂
        · exfalso
          apply h
          rw [he₁] at *
          exact hk
        · simpa [removeKV, hk] using ih he₂
      · rcases List.mem_cons.mp he with he₁ | he₂
        · simp [removeKV, hk, he₁]
        · simp [removeKV, hk]
          exact Or.inr (ih he₂)

theorem lookupKV_removeKV_ne (l : List (κ × ν)) {k k' : κ} (h : k ≠ k') :
    lookupKV (removeKV l k) k' = lookupKV l k' := by
  induction l with
  | nil => simp [removeKV]
  | cons hd t ih =>
      obtain ⟨k₀, v₀⟩ := hd
      by_cases hk : k₀ = k
      · subst hk
        simp [removeKV, lookupKV, ih, h]
      · simp [removeKV, lookupKV, hk, ih]

end AssocList

/-- The circuit's persistent stores (§4.C), one field per `#[pallet::storage]`
item of `lib.rs`.  `xtxInsuranceLinks` is a `ValueQuery` map (missing key
reads as `[]`). -/
structure CircuitStorage where
  xExecSignals : List (Nat × XExecSignal)
  fullSideEffects : List (Nat × List (List FullSideEffect))
  localXtxStates : List (Nat × LocalState)
  insuranceDeposits : List ((Nat × SideEffectId) × InsuranceDeposit)
  xtxInsuranceLinks : List (Nat × List SideEffectId)
  localSideEffectToXtxIdLinks : List (SideEffectId × Nat)
  activeXExecSignalsTimingLinks : List (Nat × Nat)
  signalQueue : List (Nat × ExecutionSignal)
deriving DecidableEq, Repr

/-- The empty storage. -/
def CircuitStorage.empty : CircuitStorage :=
  ⟨[], [], [], [], [], [], [], []⟩

/-- Runtime configuration plus the oracles for the external collaborators
consumed by the circuit: XDNS (`known_gateways` decides `get_abi`,
`programmable_internal_gateways` / `on_circuit_gateways` decide
`get_gateway_type_unsafe`), the side-effects protocol (`args_valid`
decides `validate_args`), the portal (`finalized_height`,
`portal_confirms` merging `confirm_and_decode_payload_params` and
`confirmation_plug`), and the account manager (`account_deposit_ok`,
`account_finalize_ok`).  `fresh_xtx_id` models the content hash produced
by `XExecSignal::setup_fresh` for the submission at hand. -/
structure Env where
  self_gateway_id : Nat
  self_account : Nat
  fresh_xtx_id : Nat
  block_number : Nat
  xtx_timeout_default : Nat
  xtx_timeout_check_interval : Nat
  deletion_queue_limit : Nat
  signal_queue_depth : Nat
  known_gateways : List Nat
  programmable_internal_gateways : List Nat
  on_circuit_gateways : List Nat
  args_valid : SideEffect → Bool
  finalized_height : Nat → Option Nat
  portal_confirms : SideEffect → ConfirmedSideEffect → Bool
  account_deposit_ok : SideEffect → Bool
  account_finalize_ok : Bool

/-- The in-memory working copy materialised by `setup` (`LocalXtxCtx` of
`state.rs`; the `use_protocol` object is external and carries no state the
circuit reads back). -/
structure LocalXtxCtx where
  local_state : LocalState
  xtx_id : Nat
  xtx : XExecSignal
  insurance_deposits : List (SideEffectId × InsuranceDeposit)
  full_side_effects : List (List FullSideEffect)
deriving DecidableEq, Repr

/-! ### Validator: sorting and step partitioning (`validate`, lib.rs 1563-1588) -/

/-- One insertion step of the stable sort performed by
`full_side_effects.sort_by(|a, b| b.security_lvl.partial_cmp(&a.security_lvl))`:
the element `x` moves past every element of ≥ rank (descending order,
equal elements keep their original relative order, as Rust's `sort_by` is
stable). -/
def sinsert (x : FullSideEffect) : List FullSideEffect → List FullSideEffect
  | [] => [x]
  | y :: ys =>
      if y.security_lvl.rank < x.security_lvl.rank then x :: y :: ys
      else y :: sinsert x ys

/-- Stable sort of the FSX vector, descending by `security_lvl`. -/
def sortFsxAux : List FullSideEffect → List FullSideEffect → List FullSideEffect
  | [], acc => acc
  | x :: xs, acc => sortFsxAux xs (sinsert x acc)

/-- Model of the `sort_by` call in `validate`. -/
def sortFsx (l : List FullSideEffect) : List FullSideEffect :=
  sortFsxAux l []

/-- The step-partition loop of `validate` (lib.rs 1566-1584): push into the
current (last) step unless the FSX is `Dirty` and the current step is
nonempty, in which case a fresh singleton step is opened. -/
def partGo (cur : List FullSideEffect) :
    List FullSideEffect → List (List FullSideEffect)
  | [] => [cur]
  | f :: fs =>
      if f.security_lvl ≠ SecurityLvl.Dirty ∨ cur = [] then
        partGo (cur ++ [f]) fs
      else
        cur :: partGo [f] fs

/-- Model of the partition phase of `validate`, starting from the
`vec![vec![]]` initial step vector. -/
def partitionSteps (l : List FullSideEffect) : List (List FullSideEffect) :=
  partGo [] l

/-- `Xdns::get_gateway_type_unsafe` is escrow-grade iff the gateway type is
`ProgrammableInternal(0)` or `OnCircuit(0)`
(`determine_dirty_vs_escrowed_lvl`, lib.rs 1532-1549). -/
def determine_dirty_vs_escrowed_lvl (env : Env) (s : SideEffect) : SecurityLvl :=
  if s.target ∈ env.programmable_internal_gateways ∨
      s.target ∈ env.on_circuit_gateways then
    SecurityLvl.Escrowed
  else
    SecurityLvl.Dirty

/-- The per-SFX loop of `validate` (lib.rs 1475-1561): resolve the gateway
ABI, type-check the arguments, extract the optional insurance pair
(requiring `prize == reward`), capture the submission target height and
build the `FullSideEffect` with its security level.  Returns the FSX list
in submission order together with the accumulated insurance deposits. -/
def validateLoop (env : Env) (requester : Nat) :
    List SideEffect →
      Except String (List FullSideEffect × List (SideEffectId × InsuranceDeposit))
  | [] => .ok ([], [])
  | s :: rest =>
      if s.target ∈ env.known_gateways then
        if env.args_valid s then
          match s.optional_insurance with
          | some (ins, rew) =>
              if s.prize ≠ rew then
                .error "Side_effect prize must be equal to reward of Optional Insurance"
              else
                match env.finalized_height s.target with
                | none => .error "target height not found"
                | some h =>
                    match validateLoop env requester rest with
                    | .error e => .error e
                    | .ok (fsxs, deps) =>
                        .ok (⟨s, none, SecurityLvl.Optimistic, h⟩ :: fsxs,
                          (s.generate_id,
                            ⟨ins, rew, 0, none, requester, env.block_number⟩) :: deps)
          | none =>
              match env.finalized_height s.target with
              | none => .error "target height not found"
              | some h =>
                  match validateLoop env requester rest with
                  | .error e => .error e
                  | .ok (fsxs, deps) =>
                      .ok (⟨s, none, determine_dirty_vs_escrowed_lvl env s, h⟩ :: fsxs,
                        deps)
        else
          .error "arguments validation failed"
      else
        .error "ABI not found"

/-- Model of `Pallet::validate` (lib.rs 1458-1589): run the per-SFX loop,
then sort descending by security level and partition into steps.  Returns
the step vector and the insurance deposits recorded on the local
context. -/
def validate (env : Env) (requester : Nat) (side_effects : List SideEffect) :
    Except String
      (List (List FullSideEffect) × List (SideEffectId × InsuranceDeposit)) :=
  match validateLoop env requester side_effects with
  | .error e => .error e
  | .ok (fsxs, deps) => .ok (partitionSteps (sortFsx fsxs), deps)

/-! ### Status derivation (`state.rs`, modelled from the spec §4.B) -/

/-- Modelled from the spec: §4.B.1, `determine_effects_insurance_status`
of `state.rs` (not under `src/`): `PendingInsurance` while any required
deposit is unbonded, `Bonded` once all are bonded. -/
def determine_effects_insurance_status
    (deps : List (SideEffectId × InsuranceDeposit)) : CircuitStatus :=
  if deps.any (fun d => d.2.bonder.isNone) then CircuitStatus.PendingInsurance
  else CircuitStatus.Bonded

/-- A step still has unconfirmed side effects. -/
def stepIncomplete (step : List FullSideEffect) : Bool :=
  step.any (fun f => f.confirmed.isNone)

/-- Walk the step vector looking for the first incomplete step; `k` is the
index of the head step. -/
def determineSteps : Nat → List (List FullSideEffect) → CircuitStatus
  | _, [] => CircuitStatus.FinishedAllSteps
  | k, step :: rest =>
      if stepIncomplete step then
        if step.any (fun f => f.confirmed.isSome) then
          CircuitStatus.PendingExecution
        else if k = 0 then CircuitStatus.Ready
        else CircuitStatus.Finished
      else
        determineSteps (k + 1) rest

/-- Modelled from the spec: §4.B.2, `CircuitStatus::determine_xtx_status`
of `state.rs` (not under `src/`): a pure reduction over the step vector and
the insurance deposits.  Any unbonded deposit gives `PendingInsurance`;
otherwise the first incomplete step decides: mixed confirmations give
`PendingExecution`, a fresh first step gives `Ready`, a fresh later step
gives `Finished`, and no incomplete step gives `FinishedAllSteps`. -/
def determine_xtx_status (steps : List (List FullSideEffect))
    (deps : List (SideEffectId × InsuranceDeposit)) : CircuitStatus :=
  if deps.any (fun d => d.2.bonder.isNone) then CircuitStatus.PendingInsurance
  else determineSteps 0 steps

/-! ### Phase 1: `setup` (lib.rs 957-1053) -/

/-- Hydrate the insurance deposits recorded under `XtxInsuranceLinks`; a
missing row panics with the source's
`expect("Should not be state inconsistency")`. -/
def collectDeposits (st : CircuitStorage) (id : Nat) :
    List SideEffectId → Except ExecError (List (SideEffectId × InsuranceDeposit))
  | [] => .ok []
  | sid :: rest =>
      match lookupKV st.insuranceDeposits (id, sid) with
      | none => .error (.crash "Should not be state inconsistency")
      | some dep =>
          match collectDeposits st id rest with
          | .error e => .error e
          | .ok l => .ok ((sid, dep) :: l)

/-- Model of `Pallet::setup`.  A `Requested` entry fabricates a fresh Xtx
(`timeouts_at = XtxTimeoutDefault + now`, `steps_cnt = (0, 0)`, status
`Requested`, per `XExecSignal::setup_fresh`, modelled from the spec
§4.F.1); the other supported entries load the Xtx and its artifacts from
storage, with only the `Finished` entry checking the stored status.
Unsupported entry statuses hit the source's `unimplemented!()`. -/
def setup (env : Env) (current_status : CircuitStatus) (requester : Nat)
    (reward : Nat) (xtx_id : Option Nat) (st : CircuitStorage) :
    Except ExecError LocalXtxCtx :=
  match current_status with
  | .Requested =>
      let dup := match xtx_id with
        | some id => (lookupKV st.xExecSignals id).isSome
        | none => false
      if dup then .error (.err "SetupFailedDuplicatedXtx")
      else
        .ok
          { local_state := 0
            xtx_id := env.fresh_xtx_id
            xtx :=
              { requester := requester
                timeouts_at := env.xtx_timeout_default + env.block_number
                delay_steps_at := none
                status := CircuitStatus.Requested
                steps_cnt := (0, 0)
                total_reward := some reward }
            insurance_deposits := []
            full_side_effects := [] }
  | .Ready | .PendingExecution | .PendingInsurance | .Finished | .RevertTimedOut =>
      match xtx_id with
      | none => .error (.err "SetupFailedEmptyXtx")
      | some id =>
          match lookupKV st.xExecSignals id with
          | none => .error (.err "SetupFailedUnknownXtx")
          | some xtx =>
              if current_status = CircuitStatus.Finished ∧
                  xtx.status.rank < CircuitStatus.Finished.rank then
                .error (.err "SetupFailedIncorrectXtxStatus")
              else
                match collectDeposits st id (lookupD st.xtxInsuranceLinks id []) with
                | .error e => .error e
                | .ok insurance =>
                    match lookupKV st.fullSideEffects id with
                    | none => .error (.err "SetupFailedXtxStorageArtifactsNotFound")
                    | some steps =>
                        match lookupKV st.localXtxStates id with
                        | none => .error (.err "SetupFailedXtxStorageArtifactsNotFound")
                        | some ls =>
                            .ok
                              { local_state := ls
                                xtx_id := id
                                xtx := xtx
                                insurance_deposits := insurance
                                full_side_effects := steps }
  | _ => .error (.crash "unimplemented")

/-! ### Phase 4: `update` (lib.rs 1056-1100) -/

/-- Model of `Pallet::get_current_step_fsx` (lib.rs 1801-1812): index the
step vector by `steps_cnt.cursor` with no bounds check — an
out-of-range cursor is a Rust panic. -/
def get_current_step_fsx (ctx : LocalXtxCtx) :
    Except ExecError (List FullSideEffect) :=
  match ctx.full_side_effects[ctx.xtx.steps_cnt.1]? with
  | some s => .ok s
  | none => .error (.crash "index out of bounds")

/-- Model of `Pallet::update`: mutate the context by the current status
(`Requested` initialises `steps_cnt`; `Ready | PendingExecution |
Finished` advances the cursor when the whole current step is confirmed,
short-circuiting to `FinishedAllSteps` when the cursor reaches the
total), then recompute the overall status with `determine_xtx_status`. -/
def update (ctx : LocalXtxCtx) :
    Except ExecError ((CircuitStatus × CircuitStatus) × LocalXtxCtx) :=
  let current := ctx.xtx.status
  match current with
  | .Ready | .PendingExecution | .Finished =>
      match get_current_step_fsx ctx with
      | .error e => .error e
      | .ok step =>
          if step.any (fun f => f.confirmed.isNone) then
            let ns := determine_xtx_status ctx.full_side_effects
              ctx.insurance_deposits
            .ok ((current, ns), { ctx with xtx := { ctx.xtx with status := ns } })
          else
            let ctx₁ := { ctx with
              xtx := { ctx.xtx with
                steps_cnt := (ctx.xtx.steps_cnt.1 + 1, ctx.xtx.steps_cnt.2)
                status := CircuitStatus.Finished } }
            if ctx₁.xtx.steps_cnt.1 = ctx₁.xtx.steps_cnt.2 then
              let ctx₂ := { ctx₁ with
                xtx := { ctx₁.xtx with status := CircuitStatus.FinishedAllSteps } }
              .ok ((current, CircuitStatus.FinishedAllSteps), ctx₂)
            else
              let ns := determine_xtx_status ctx₁.full_side_effects
                ctx₁.insurance_deposits
              .ok ((current, ns),
                { ctx₁ with xtx := { ctx₁.xtx with status := ns } })
  | .Requested =>
      let ctx₁ := { ctx with
        xtx := { ctx.xtx with steps_cnt := (0, ctx.full_side_effects.length) } }
      let ns := determine_xtx_status ctx₁.full_side_effects ctx₁.insurance_deposits
      .ok ((current, ns), { ctx₁ with xtx := { ctx₁.xtx with status := ns } })
  | .PendingInsurance | .Bonded =>
      let ctx₁ := { ctx with
        xtx := { ctx.xtx with
          status := determine_effects_insurance_status ctx.insurance_deposits } }
      let ns := determine_xtx_status ctx₁.full_side_effects ctx₁.insurance_deposits
      .ok ((current, ns), { ctx₁ with xtx := { ctx₁.xtx with status := ns } })
  | _ =>
      let ns := determine_xtx_status ctx.full_side_effects ctx.insurance_deposits
      .ok ((current, ns), { ctx with xtx := { ctx.xtx with status := ns } })

/-! ### Phase 5: `apply` (lib.rs 1105-1296) — the sole writer -/

/-- `is_local` of `apply`'s `Requested` arm (lib.rs 1134-1140): the self
gateway or a `ProgrammableInternal(0)` gateway executes locally. -/
def is_local (env : Env) (gateway_id : Nat) : Bool :=
  gateway_id = env.self_gateway_id ∨
    gateway_id ∈ env.programmable_internal_gateways

/-- Insert a batch of key-value pairs in order. -/
def insertAll {κ ν : Type} [DecidableEq κ] (l : List (κ × ν))
    (kvs : List (κ × ν)) : List (κ × ν) :=
  kvs.foldl (fun acc kv => insertKV acc kv.1 kv.2) l

/-- Model of `Pallet::apply`: dispatch on the **old** status of the status
change and perform that arm's storage writes.  Statuses without an arm
(`RevertKill`, `Reverted`, `RevertMisbehaviour`, …) fall to the source's
`_ => (None, None)` and write nothing. -/
def applyExec (env : Env) (ctx : LocalXtxCtx)
    (maybe_insurance : Option (SideEffectId × InsuranceDeposit))
    (status_change : CircuitStatus × CircuitStatus) (st : CircuitStorage) :
    (Option XExecSignal × Option (List (List FullSideEffect))) × CircuitStorage :=
  match status_change.1 with
  | .Requested =>
      let local_sfx_ids : List SideEffectId :=
        (ctx.full_side_effects.map (fun step =>
          (step.filter (fun f => is_local env f.input.target)).map
            (fun f => f.input.generate_id))).flatten
      let st₁ := { st with
        fullSideEffects := insertKV st.fullSideEffects ctx.xtx_id
          ctx.full_side_effects }
      let st₂ := { st₁ with
        localSideEffectToXtxIdLinks := insertAll st₁.localSideEffectToXtxIdLinks
          (local_sfx_ids.map (fun sid => (sid, ctx.xtx_id))) }
      let st₃ := { st₂ with
        insuranceDeposits := insertAll st₂.insuranceDeposits
          (ctx.insurance_deposits.map
            (fun (d : SideEffectId × InsuranceDeposit) => ((ctx.xtx_id, d.1), d.2))) }
      let st₄ := { st₃ with
        xtxInsuranceLinks := insertKV st₃.xtxInsuranceLinks ctx.xtx_id
          (ctx.insurance_deposits.map
            (fun (d : SideEffectId × InsuranceDeposit) => d.1)) }
      let st₅ := { st₄ with
        localXtxStates := insertKV st₄.localXtxStates ctx.xtx_id ctx.local_state }
      let st₆ := { st₅ with
        activeXExecSignalsTimingLinks := insertKV st₅.activeXExecSignalsTimingLinks
          ctx.xtx_id ctx.xtx.timeouts_at }
      let st₇ := { st₆ with
        xExecSignals := insertKV st₆.xExecSignals ctx.xtx_id ctx.xtx }
      ((some ctx.xtx, some ctx.full_side_effects), st₇)
  | .PendingInsurance =>
      let st₁ := match maybe_insurance with
        | some (sid, dep) =>
            { st with insuranceDeposits :=
                insertKV st.insuranceDeposits (ctx.xtx_id, sid) dep }
        | none => st
      if status_change.1 ≠ status_change.2 then
        let xtx' := { ctx.xtx with status := status_change.2 }
        ((some xtx', none),
          { st₁ with xExecSignals := insertKV st₁.xExecSignals ctx.xtx_id xtx' })
      else ((none, none), st₁)
  | .RevertTimedOut =>
      let st₁ := { st with
        xExecSignals := insertKV st.xExecSignals ctx.xtx_id ctx.xtx }
      let st₂ := { st₁ with
        activeXExecSignalsTimingLinks :=
          removeKV st₁.activeXExecSignalsTimingLinks ctx.xtx_id }
      ((some ctx.xtx, some ctx.full_side_effects), st₂)
  | .Ready | .Bonded | .PendingExecution | .Finished =>
      let st₁ := { st with
        fullSideEffects := insertKV st.fullSideEffects ctx.xtx_id
          ctx.full_side_effects }
      let st₂ := { st₁ with
        xExecSignals := insertKV st₁.xExecSignals ctx.xtx_id ctx.xtx }
      if CircuitStatus.Ready.rank < ctx.xtx.status.rank then
        ((some ctx.xtx, some ctx.full_side_effects), st₂)
      else ((none, some ctx.full_side_effects), st₂)
  | .FinishedAllSteps =>
      let st₁ := { st with
        xExecSignals := insertKV st.xExecSignals ctx.xtx_id ctx.xtx }
      let st₂ := { st₁ with
        activeXExecSignalsTimingLinks :=
          removeKV st₁.activeXExecSignalsTimingLinks ctx.xtx_id }
      ((some ctx.xtx, some ctx.full_side_effects), st₂)
  | _ => ((none, none), st)

/-! ### Phase 3: `square_up` (lib.rs 1359-1441) -/

/-- Model of `Pallet::square_up`.  Only the effects visible to the circuit
are modelled: the account-manager transfers live behind the
`account_deposit_ok` / `account_finalize_ok` oracles and `Optimistic::try_slash`
/ `try_unbond` (sibling `optimistic.rs`, not under `src/`; the spec §4.E
describes them as pure balance movements) do not touch the circuit
stores.  The arm is selected by the **current context status**; statuses
without an arm (notably `RevertKill`) fall to the source's `_ => {}`. -/
def square_up (env : Env) (ctx : LocalXtxCtx) (maybe_requester : Option Nat)
    (maybe_xbi : Option (Nat × Nat × Nat)) : Except ExecError Unit :=
  match ctx.xtx.status with
  | .Requested =>
      match maybe_requester with
      | none => .error (.err "ChargingTransferFailed")
      | some _ =>
          match get_current_step_fsx ctx with
          | .error e => .error e
          | .ok step =>
              if step.all (fun f => f.input.prize = 0 ∨ env.account_deposit_ok f.input) then
                .ok ()
              else .error (.err "ChargingTransferFailed")
  | .PendingExecution | .Ready =>
      match maybe_xbi with
      | none => .error (.err "ChargingTransferFailed")
      | some _ => .ok ()
  | .RevertTimedOut | .Reverted | .RevertMisbehaviour =>
      match get_current_step_fsx ctx with
      | .error e => .error e
      | .ok _ => .ok ()
  | .Finished | .FinishedAllSteps =>
      match get_current_step_fsx ctx with
      | .error e => .error e
      | .ok step =>
          if step.all (fun f => f.confirmed.isSome) then
            if env.account_finalize_ok then .ok ()
            else .error (.err "FinalizeSquareUpFailed")
          else
            .error (.err "CriticalStateSquareUpCalledToFinishWithoutFsxConfirmed")
  | _ => .ok ()

/-- Model of `Pallet::kill` (lib.rs 1349-1357): set the status to the
cause, slash (balance-only), square up — whose failure is the source's
`expect`, i.e. a panic — and apply with `(cause, cause)`. -/
def kill (env : Env) (ctx : LocalXtxCtx) (cause : CircuitStatus)
    (st : CircuitStorage) : Except ExecError CircuitStorage :=
  let ctx₁ := { ctx with xtx := { ctx.xtx with status := cause } }
  match square_up env ctx₁ none none with
  | .error _ =>
      .error (.crash "Expect Revert and RevertKill options to square up to be infallible")
  | .ok _ => .ok (applyExec env ctx₁ none (cause, cause) st).2

/-! ### `confirm` (lib.rs 1591-1705) -/

/-- Walk a step looking for the FSX whose input id matches; confirm it if
it is still unconfirmed (the inner loop of `confirm_order`). -/
def confirmAt (sid : SideEffectId) (conf : ConfirmedSideEffect) :
    List FullSideEffect → Except ExecError (FullSideEffect × List FullSideEffect)
  | [] => .error (.err "Unable to find matching Side Effect in given Xtx to confirm")
  | f :: rest =>
      if f.input.generate_id = sid then
        if f.confirmed.isNone then
          let f' := { f with confirmed := some conf }
          .ok (f', f' :: rest)
        else .error (.err "Side Effect already confirmed")
      else
        match confirmAt sid conf rest with
        | .error e => .error e
        | .ok (f', rest') => .ok (f', f :: rest')

/-- Model of the nested `confirm_order` (lib.rs 1605-1656). -/
def confirm_order (side_effect : SideEffect) (conf : ConfirmedSideEffect)
    (step : List FullSideEffect) :
    Except ExecError (FullSideEffect × List FullSideEffect) :=
  if step.isEmpty then .error (.err "Xtx has an empty single step.")
  else confirmAt side_effect.generate_id conf step

/-- Model of `Pallet::confirm`: index the step vector by the cursor with
no bounds check (a Rust panic when out of range), run `confirm_order`,
then verify the inclusion proof and the confirmation predicate through
the portal oracle. -/
def confirmStep (env : Env) (ctx : LocalXtxCtx) (side_effect : SideEffect)
    (conf : ConfirmedSideEffect) : Except ExecError LocalXtxCtx :=
  match ctx.full_side_effects[ctx.xtx.steps_cnt.1]? with
  | none => .error (.crash "index out of bounds")
  | some step =>
      match confirm_order side_effect conf step with
      | .error e => .error e
      | .ok (_, step') =>
          if env.portal_confirms side_effect conf then
            .ok { ctx with
              full_side_effects :=
                ctx.full_side_effects.set ctx.xtx.steps_cnt.1 step' }
          else .error (.err "SideEffect confirmation failed!")

/-! ### Entry points -/

/-- Model of the `on_extrinsic_trigger` extrinsic (lib.rs 574-616):
setup(Requested) → validate → square_up → update → apply.  An error
leaves the storage as it was (all writes happen in `apply`); event
emission is not modelled. -/
def onExtrinsicTrigger (env : Env) (requester : Nat)
    (side_effects : List SideEffect) (fee : Nat) (st : CircuitStorage) :
    Except ExecError Unit × CircuitStorage :=
  match setup env CircuitStatus.Requested requester fee none st with
  | .error e => (.error e, st)
  | .ok ctx =>
      match validate env requester side_effects with
      | .error _ => (.error (.err "SideEffectsValidationFailed"), st)
      | .ok (steps, deps) =>
          let ctx₁ := { ctx with
            full_side_effects := steps
            insurance_deposits := deps }
          match square_up env ctx₁ (some requester) none with
          | .error e => (.error e, st)
          | .ok _ =>
              match update ctx₁ with
              | .error e => (.error e, st)
              | .ok (sc, ctx₂) =>
                  (.ok (), (applyExec env ctx₂ none sc st).2)

/-- Model of the `confirm_side_effect` extrinsic (lib.rs 740-789):
setup(PendingExecution) → confirm → update → apply. -/
def confirmSideEffect (env : Env) (relayer : Nat) (xtx_id : Nat)
    (side_effect : SideEffect) (conf : ConfirmedSideEffect)
    (st : CircuitStorage) : Except ExecError Unit × CircuitStorage :=
  match setup env CircuitStatus.PendingExecution relayer 0 (some xtx_id) st with
  | .error e => (.error e, st)
  | .ok ctx =>
      match confirmStep env ctx side_effect conf with
      | .error e => (.error e, st)
      | .ok ctx₁ =>
          match update ctx₁ with
          | .error e => (.error e, st)
          | .ok (sc, ctx₂) =>
              (.ok (), (applyExec env ctx₂ none sc st).2)

/-! ### Signal queue (lib.rs 1747-1799) and the block hook (lib.rs 330-377) -/

/-- `BoundedVec::swap_remove(0)`: remove the head and move the last
element into its place. -/
def swapRemoveHead {α : Type} : List α → List α
  | [] => []
  | [_] => []
  | _ :: xs =>
      match xs.getLast? with
      | some l => l :: xs.dropLast
      | none => []

/-- `queue.slide(0, queue.len())`: rotate the head to the tail. -/
def rotateHead {α : Type} : List α → List α
  | [] => []
  | x :: xs => xs ++ [x]

/-- The `while` loop of `process_signal_queue`, with an explicit fuel
bound.  `none` means the loop has not exited within `fuel` iterations —
the source loop has no fuel, so an input on which every fuel yields
`none` never terminates.  A successful setup kills the Xtx and
`swap_remove`s the head, spending one unit of budget; a failed setup
rotates the head to the tail **without spending budget**. -/
def psqLoop (env : Env) : Nat → List (Nat × ExecutionSignal) → Nat →
    CircuitStorage →
    Option (Except ExecError (List (Nat × ExecutionSignal) × CircuitStorage))
  | 0, q, b, st => if q.isEmpty ∨ b = 0 then some (.ok (q, st)) else none
  | fuel + 1, q, b, st =>
      match q with
      | [] => some (.ok ([], st))
      | (requester, signal) :: _ =>
          if b = 0 then some (.ok (q, st))
          else
            let intended := match signal.kind with
              | SignalKind.Complete => CircuitStatus.Finished
              | SignalKind.Kill => CircuitStatus.RevertKill
            match setup env CircuitStatus.Ready requester 0
                (some signal.execution_id) st with
            | .ok ctx =>
                match kill env ctx intended st with
                | .ok st' => psqLoop env fuel (swapRemoveHead q) (b - 1) st'
                | .error e => some (.error e)
            | .error _ => psqLoop env fuel (rotateHead q) b st

/-- Model of `Pallet::process_signal_queue`: early-return on an empty
queue, otherwise run the loop with budget `SignalQueueDepth / 4` and
store the remaining queue back. -/
def processSignalQueue (fuel : Nat) (env : Env) (st : CircuitStorage) :
    Option (Except ExecError CircuitStorage) :=
  if st.signalQueue.length = 0 then some (.ok st)
  else
    match psqLoop env fuel st.signalQueue (env.signal_queue_depth / 4) st with
    | none => none
    | some (.error e) => some (.error e)
    | some (.ok (q, st')) => some (.ok { st' with signalQueue := q })

/-- The timeout sweep of `on_initialize` (lib.rs 341-371): every
`XtxTimeoutCheckInterval` blocks, find the **first** timing-link entry
whose `timeouts_at ≤ now`, and run the `RevertTimedOut` kill path on it;
a failing `setup` is the source's `.unwrap()` panic.  The
`deletion_counter > DeletionQueueLimit` guard is kept although the
counter is always `0` at the check. -/
def timeoutSweep (env : Env) (n : Nat) (st : CircuitStorage) :
    Except ExecError CircuitStorage :=
  if n % env.xtx_timeout_check_interval = 0 then
    match st.activeXExecSignalsTimingLinks.find? (fun e => decide (e.2 ≤ n)) with
    | none => .ok st
    | some (xtx_id, _) =>
        if 0 > env.deletion_queue_limit then .ok st
        else
          match setup env CircuitStatus.RevertTimedOut env.self_account 0
              (some xtx_id) st with
          | .error _ => .error (.crash "unwrap on a failed setup in the timeout sweep")
          | .ok ctx => kill env ctx CircuitStatus.RevertTimedOut st
  else .ok st

/-- Model of the `on_initialize` hook: drain the signal queue, then run
the timeout sweep at block `n`. -/
def onInitialize (fuel : Nat) (env : Env) (n : Nat) (st : CircuitStorage) :
    Option (Except ExecError CircuitStorage) :=
  match processSignalQueue fuel env st with
  | none => none
  | some (.error e) => some (.error e)
  | some (.ok st₁) => some (timeoutSweep env n st₁)

/-! ### Concrete instances used by the individual claims -/

/-- An environment with one programmable-internal gateway `1`, one external
gateway `2`, the circuit itself at gateway `3`, permissive oracles,
`XtxTimeoutDefault = 100`, current block `1`, `SignalQueueDepth = 8`. -/
def demoEnv : Env :=
  { self_gateway_id := 3
    self_account := 33
    fresh_xtx_id := 7
    block_number := 1
    xtx_timeout_default := 100
    xtx_timeout_check_interval := 10
    deletion_queue_limit := 16
    signal_queue_depth := 8
    known_gateways := [1, 2]
    programmable_internal_gateways := [1]
    on_circuit_gateways := []
    args_valid := fun _ => true
    finalized_height := fun _ => some 5
    portal_confirms := fun _ _ => true
    account_deposit_ok := fun _ => true
    account_finalize_ok := true }

/-- A single escrow-grade side effect with no insurance and no reward. -/
def sfxA : SideEffect :=
  { target := 1, prize := 0, encoded_action := 11, optional_insurance := none,
    nonce := 1 }

/-- A confirmation payload for `sfxA`. -/
def confA : ConfirmedSideEffect :=
  { executioner := 9, cost := 2, inclusion_data := 4 }

/-- The admitted `FullSideEffect` for `sfxA`. -/
def fsxA : FullSideEffect :=
  { input := sfxA, confirmed := none, security_lvl := SecurityLvl.Escrowed,
    submission_target_height := 5 }

/-- A `Ready` Xtx record with one single-FSX step, as produced by
admitting `[sfxA]` at block 1. -/
def readyXtx : XExecSignal :=
  { requester := 1
    timeouts_at := 101
    delay_steps_at := none
    status := CircuitStatus.Ready
    steps_cnt := (0, 1)
    total_reward := some 0 }

/-- Storage holding the Xtx `7` in status `Ready` with its artifacts and
timing link, and a `Kill` control signal for it in the queue. -/
def killSt : CircuitStorage :=
  { xExecSignals := [(7, readyXtx)]
    fullSideEffects := [(7, [[fsxA]])]
    localXtxStates := [(7, 0)]
    insuranceDeposits := []
    xtxInsuranceLinks := []
    localSideEffectToXtxIdLinks := []
    activeXExecSignalsTimingLinks := [(7, 101)]
    signalQueue := [(1, { kind := SignalKind.Kill, execution_id := 7 })] }

/-! ### Claim C1 -/

/-- C1: the claimed invariant `xtx_id ∈ ActiveXExecSignalsTimingLinks ⇔
status < FinishedAllSteps ∧ not revert` fails on the code: admitting a
single escrowed side effect and then confirming it drives the persisted
status to `FinishedAllSteps`, yet the timing link of the Xtx survives the
transition — `apply` dispatches on the **old** status (`Ready`), whose arm
never removes the link; the link-removing `FinishedAllSteps` arm is keyed
on the old status and cannot fire on the transition into
`FinishedAllSteps`. -/
theorem c1_finished_xtx_keeps_timing_link :
    (onExtrinsicTrigger demoEnv 1 [sfxA] 0 CircuitStorage.empty).1 = .ok () ∧
    (confirmSideEffect demoEnv 2 7 sfxA confA
        (onExtrinsicTrigger demoEnv 1 [sfxA] 0 CircuitStorage.empty).2).1 = .ok () ∧
    (lookupKV (confirmSideEffect demoEnv 2 7 sfxA confA
        (onExtrinsicTrigger demoEnv 1 [sfxA] 0 CircuitStorage.empty).2).2.xExecSignals
        7).map XExecSignal.status = some CircuitStatus.FinishedAllSteps ∧
    lookupKV (confirmSideEffect demoEnv 2 7 sfxA confA
        (onExtrinsicTrigger demoEnv 1 [sfxA] 0 CircuitStorage.empty).2).2.activeXExecSignalsTimingLinks
        7 = some 101 := by
  decide

/-! ### Claim C2 -/

/-- C2: processing a `SignalKind::Kill` signal for a `Ready` Xtx does
**not** persist `RevertKill`: `kill` runs `apply` with old status
`RevertKill`, which falls to the write-nothing `_` arm, and `square_up`
likewise has no `RevertKill` arm; `process_signal_queue` emits nothing.
The queue entry is consumed but every store — including the `Ready`
status and the timing link of Xtx `7` — is byte-identical. -/
theorem c2_kill_signal_leaves_status_ready :
    processSignalQueue 2 demoEnv killSt
        = some (.ok { killSt with signalQueue := [] }) ∧
    (lookupKV killSt.xExecSignals 7).map XExecSignal.status
        = some CircuitStatus.Ready ∧
    lookupKV killSt.activeXExecSignalsTimingLinks 7 = some 101 := by
  decide

/-! ### Claim C3 -/

/-- C3 counterexample: submitting the empty bundle through
`on_extrinsic_trigger` is **not** rejected — the call succeeds and the
stores are written (an `XExecSignals` row and a timing link appear for the
fresh Xtx id).  The only zero-SFX rejection in the pallet lives in
`convert_side_effects`, which this entry point does not call. -/
theorem c3_empty_bundle_is_admitted :
    (onExtrinsicTrigger demoEnv 1 [] 0 CircuitStorage.empty).1 = .ok () ∧
    (lookupKV (onExtrinsicTrigger demoEnv 1 []
        0 CircuitStorage.empty).2.xExecSignals 7).isSome = true ∧
    (lookupKV (onExtrinsicTrigger demoEnv 1 []
        0 CircuitStorage.empty).2.activeXExecSignalsTimingLinks 7).isSome = true := by
  decide

/-- C3 amended: for every environment, requester, fee and prior storage,
an empty bundle is admitted by `on_extrinsic_trigger`: `validate` builds
the singleton step vector `[[]]`, no phase fails, and `apply` persists the
fresh Xtx — its record and timing link are present afterwards. -/
theorem c3_empty_bundle_always_admitted (env : Env) (requester fee : Nat)
    (st : CircuitStorage) :
    (onExtrinsicTrigger env requester [] fee st).1 = .ok () ∧
    lookupKV (onExtrinsicTrigger env requester [] fee st).2.xExecSignals
        env.fresh_xtx_id
      = some
          { requester := requester
            timeouts_at := env.xtx_timeout_default + env.block_number
            delay_steps_at := none
            status := CircuitStatus.FinishedAllSteps
            steps_cnt := (0, 1)
            total_reward := some fee } ∧
    lookupKV (onExtrinsicTrigger env requester [] fee st).2.activeXExecSignalsTimingLinks
        env.fresh_xtx_id = some (env.xtx_timeout_default + env.block_number) := by
  refine ⟨?_, ?_, ?_⟩ <;>
    simp [onExtrinsicTrigger, setup, validate, validateLoop, sortFsx, sortFsxAux,
      partitionSteps, partGo, square_up, get_current_step_fsx, update,
      determine_xtx_status, determineSteps, stepIncomplete, applyExec, insertAll,
      lookupKV_insertKV_self]

/-! ### Claim C8 -/

/-- Storage whose queue holds a single `Kill` signal whose `execution_id`
(`9`) has no stored Xtx, so `setup` always fails for it. -/
def badSignalSt : CircuitStorage :=
  { killSt with signalQueue := [(1, { kind := SignalKind.Kill, execution_id := 9 })] }

/-- C8: the `while` loop of `process_signal_queue` does **not** terminate
on a queue whose head signal always fails `setup`: the error arm rotates
the head to the tail without spending budget, so a singleton queue with an
unknown `execution_id` is processed again and again — for every fuel the
loop is still running.  (With `SignalQueueDepth = 8` the budget is `2`,
shown here already for budget `1`.) -/
theorem c8_signal_queue_loop_diverges_on_bad_signal (fuel : Nat) :
    psqLoop demoEnv fuel badSignalSt.signalQueue 1 badSignalSt = none := by
  induction fuel with
  | zero => decide
  | succ n ih =>
      simpa [psqLoop, setup, badSignalSt, killSt, lookupKV, rotateHead] using ih

/-! ### Claim C5: sorting and partitioning -/

/-- Descending order on security levels: the relation maintained by the
`sort_by(|a, b| b.security_lvl.partial_cmp(&a.security_lvl))` call. -/
def fsxGE (a b : FullSideEffect) : Prop :=
  b.security_lvl.rank ≤ a.security_lvl.rank

instance : DecidableRel fsxGE := fun a b =>
  inferInstanceAs (Decidable (b.security_lvl.rank ≤ a.security_lvl.rank))

theorem SecurityLvl.rank_eq_iff {a b : SecurityLvl} :
    a.rank = b.rank ↔ a = b := by
  cases a <;> cases b <;> simp [SecurityLvl.rank]

theorem SecurityLvl.rank_zero_iff {a : SecurityLvl} :
    a.rank = 0 ↔ a = SecurityLvl.Dirty := by
  cases a <;> simp [SecurityLvl.rank]

theorem mem_sinsert {z x : FullSideEffect} {l : List FullSideEffect} :
    z ∈ sinsert x l ↔ z = x ∨ z ∈ l := by
  induction l with
  | nil => simp [sinsert]
  | cons y ys ih =>
      by_cases h : y.security_lvl.rank < x.security_lvl.rank
      · simp [sinsert, h]
      · simp [sinsert, h, ih]
        tauto

theorem sinsert_sorted {x : FullSideEffect} {l : List FullSideEffect}
    (h : List.Sorted fsxGE l) : List.Sorted fsxGE (sinsert x l) := by
  induction l with
  | nil => simp [sinsert]
  | cons y ys ih =>
      rw [List.sorted_cons] at h
      obtain ⟨hy, hys⟩ := h
      by_cases hlt : y.security_lvl.rank < x.security_lvl.rank
      · rw [sinsert]
        simp only [hlt, if_pos]
        rw [List.sorted_cons]
        constructor
        · intro b hb
          rcases List.mem_cons.mp hb with hb | hb
          · rw [hb]
            exact Nat.le_of_lt hlt
          · exact Nat.le_trans (hy b hb) (Nat.le_of_lt hlt)
        · rw [List.sorted_cons]
          exact ⟨hy, hys⟩
      · rw [sinsert]
        simp only [hlt, if_neg, if_false]
        rw [List.sorted_cons]
        constructor
        · intro b hb
          rcases mem_sinsert.mp hb with hb | hb
          · rw [hb]
            exact Nat.le_of_not_lt hlt
          · exact hy b hb
        · exact ih hys

theorem sortFsxAux_sorted (l : List FullSideEffect) :
    ∀ acc, List.Sorted fsxGE acc → List.Sorted fsxGE (sortFsxAux l acc) := by
  induction l with
  | nil => intro acc h; simpa [sortFsxAux] using h
  | cons x xs ih =>
      intro acc h
      exact ih (sinsert x acc) (sinsert_sorted h)

theorem sortFsx_sorted (l : List FullSideEffect) :
    List.Sorted fsxGE (sortFsx l) :=
  sortFsxAux_sorted l [] (by simp)

/-- The level-`v` sublist of the output of one stable insertion: the new
element lands after every already-present element of its own level. -/
theorem filter_sinsert (v : SecurityLvl) (x : FullSideEffect)
    {l : List FullSideEffect} (h : List.Sorted fsxGE l) :
    (sinsert x l).filter (fun z => decide (z.security_lvl = v))
      = l.filter (fun z => decide (z.security_lvl = v))
          ++ if x.security_lvl = v then [x] else [] := by
  induction l with
  | nil =>
      by_cases hx : x.security_lvl = v <;> simp [sinsert, hx]
  | cons y ys ih =>
      rw [List.sorted_cons] at h
      obtain ⟨hy, hys⟩ := h
      by_cases hlt : y.security_lvl.rank < x.security_lvl.rank
      · rw [sinsert]
        simp only [hlt, if_pos]
        by_cases hx : x.security_lvl = v
        · have hnil : (y :: ys).filter (fun z => decide (z.security_lvl = v)) = [] := by
            rw [List.filter_eq_nil_iff]
            intro a ha
            rcases List.mem_cons.mp ha with ha | ha
            · subst ha
              simp only [decide_eq_true_eq]
              intro hav
              rw [hav, ← hx] at hlt
              exact Nat.lt_irrefl _ hlt
            · simp only [decide_eq_true_eq]
              intro hav
              have h1 : a.security_lvl.rank ≤ y.security_lvl.rank := hy a ha
              rw [hav, ← hx] at h1
              exact Nat.lt_irrefl _ (Nat.lt_of_lt_of_le hlt h1)
          rw [List.filter_cons, hnil]
          simp [hx]
        · rw [List.filter_cons]
          simp [hx]
      · rw [sinsert]
        simp only [hlt, if_neg, if_false]
        rw [List.filter_cons, List.filter_cons]
        by_cases hyv : y.security_lvl = v
        · simp only [hyv, decide_True, if_pos]
          rw [ih hys]
          simp
        · simp only [hyv]
          rw [ih hys]
          simp

theorem filter_sortFsxAux (v : SecurityLvl) (l : List FullSideEffect) :
    ∀ acc, List.Sorted fsxGE acc →
      (sortFsxAux l acc).filter (fun z => decide (z.security_lvl = v))
        = acc.filter (fun z => decide (z.security_lvl = v))
            ++ l.filter (fun z => decide (z.security_lvl = v)) := by
  induction l with
  | nil => intro acc _; simp [sortFsxAux]
  | cons x xs ih =>
      intro acc h
      rw [sortFsxAux, ih (sinsert x acc) (sinsert_sorted h), filter_sinsert v x h,
        List.filter_cons]
      by_cases hx : x.security_lvl = v <;> simp [hx]

/-- Stability of the sort: the submission-order sublist of each security
level is untouched. -/
theorem filter_sortFsx (v : SecurityLvl) (l : List FullSideEffect) :
    (sortFsx l).filter (fun z => decide (z.security_lvl = v))
      = l.filter (fun z => decide (z.security_lvl = v)) := by
  rw [sortFsx, filter_sortFsxAux v l [] (by simp)]
  simp

/-- Any step of the partition that contains a `Dirty` FSX is that FSX's
singleton step, provided the input list is sorted descending (all `Dirty`
at the tail) — which `validate` guarantees by sorting first. -/
theorem partGo_dirty_singleton :
    ∀ (l cur : List FullSideEffect), List.Sorted fsxGE l →
      ((∀ f ∈ cur, f.security_lvl ≠ SecurityLvl.Dirty) ∨
        (∃ d, cur = [d] ∧ d.security_lvl = SecurityLvl.Dirty ∧
          ∀ f ∈ l, f.security_lvl = SecurityLvl.Dirty)) →
      ∀ step ∈ partGo cur l, ∀ f ∈ step,
        f.security_lvl = SecurityLvl.Dirty → step = [f] := by
  intro l
  induction l with
  | nil =>
      intro cur _ inv step hstep f hf hfd
      rw [partGo] at hstep
      rcases List.mem_singleton.mp hstep with rfl
      rcases inv with inv | ⟨d, hd, _, _⟩
      · exact absurd hfd (inv f hf)
      · subst hd
        rcases List.mem_singleton.mp hf with rfl
        rfl
  | cons g gs ih =>
      intro cur hsorted inv step hstep f hf hfd
      rw [List.sorted_cons] at hsorted
      obtain ⟨hg, hgs⟩ := hsorted
      have hall : g.security_lvl = SecurityLvl.Dirty →
          ∀ z ∈ gs, z.security_lvl = SecurityLvl.Dirty := by
        intro hgd z hz
        have h1 : z.security_lvl.rank ≤ g.security_lvl.rank := hg z hz
        rw [hgd] at h1
        exact SecurityLvl.rank_zero_iff.mp (Nat.le_zero.mp h1)
      rw [partGo] at hstep
      by_cases hcond : g.security_lvl ≠ SecurityLvl.Dirty ∨ cur = []
      · simp only [hcond, if_pos] at hstep
        have inv' : (∀ f ∈ cur ++ [g], f.security_lvl ≠ SecurityLvl.Dirty) ∨
            (∃ d, cur ++ [g] = [d] ∧ d.security_lvl = SecurityLvl.Dirty ∧
              ∀ f ∈ gs, f.security_lvl = SecurityLvl.Dirty) := by
          by_cases hgd : g.security_lvl = SecurityLvl.Dirty
          · rcases hcond with hcond | hcond
            · exact absurd hgd hcond
            · subst hcond
              exact Or.inr ⟨g, rfl, hgd, hall hgd⟩
          · rcases inv with inv | ⟨d, hd, hdd, hdl⟩
            · left
              intro f₀ hf₀
              rcases List.mem_append.mp hf₀ with hf₀ | hf₀
              · exact inv f₀ hf₀
              · rcases List.mem_singleton.mp hf₀ with rfl
                exact hgd
            · exact absurd (hdl g (List.mem_cons_self g gs)) hgd
        exact ih (cur ++ [g]) hgs inv' step hstep f hf hfd
      · simp only [hcond, if_neg, if_false] at hstep
        push_neg at hcond
        obtain ⟨hgd, _⟩ := hcond
        rcases List.mem_cons.mp hstep with hstep | hstep
        · subst hstep
          rcases inv with inv | ⟨d, hd, _, _⟩
          · exact absurd hfd (inv f hf)
          · subst hd
            rcases List.mem_singleton.mp hf with rfl
            rfl
        · exact ih [g] hgs
            (Or.inr ⟨g, rfl, hgd, hall hgd⟩) step hstep f hf hfd

/-- The four side effects of spec scenario S4: escrowed `A` (gateway 1 is
programmable-internal), dirty `B` and `D` (gateway 2 is external, no
insurance), optimistic `C` (insurance `(5, 3)` matching `prize = 3`). -/
def s4A : SideEffect :=
  { target := 1, prize := 0, encoded_action := 1, optional_insurance := none,
    nonce := 1 }

/-- Dirty side effect `B` of scenario S4. -/
def s4B : SideEffect :=
  { target := 2, prize := 0, encoded_action := 2, optional_insurance := none,
    nonce := 2 }

/-- Optimistic side effect `C` of scenario S4. -/
def s4C : SideEffect :=
  { target := 2, prize := 3, encoded_action := 3,
    optional_insurance := some (5, 3), nonce := 3 }

/-- Dirty side effect `D` of scenario S4. -/
def s4D : SideEffect :=
  { target := 2, prize := 0, encoded_action := 4, optional_insurance := none,
    nonce := 4 }

/-- C5: `validate` sorts the built FSX list stably so that levels
`Escrowed`/`Optimistic` precede `Dirty` and partitions `Dirty` FSX into
singleton steps; on the S4 input `[Escrowed_A, Dirty_B, Optimistic_C,
Dirty_D]` the step vector is `[[A, C], [B], [D]]`.  The general parts:
after sorting, no `Dirty` FSX precedes a non-`Dirty` one; the
submission-order sublist of every level is preserved (stability); each
step of the partition of the sorted list containing a `Dirty` FSX is a
singleton. -/
theorem c5_validate_sorts_and_partitions :
    validate demoEnv 1 [s4A, s4B, s4C, s4D]
        = .ok
            ([[{ input := s4A, confirmed := none,
                  security_lvl := SecurityLvl.Escrowed,
                  submission_target_height := 5 },
                { input := s4C, confirmed := none,
                  security_lvl := SecurityLvl.Optimistic,
                  submission_target_height := 5 }],
              [{ input := s4B, confirmed := none,
                  security_lvl := SecurityLvl.Dirty,
                  submission_target_height := 5 }],
              [{ input := s4D, confirmed := none,
                  security_lvl := SecurityLvl.Dirty,
                  submission_target_height := 5 }]],
              [(s4C.generate_id,
                { insurance := 5, reward := 3, bonded_amount := 0, bonder := none,
                  requester := 1, requested_at := 1 })]) ∧
    (∀ l : List FullSideEffect,
      (sortFsx l).Pairwise (fun a b =>
        a.security_lvl = SecurityLvl.Dirty → b.security_lvl = SecurityLvl.Dirty)) ∧
    (∀ (l : List FullSideEffect) (v : SecurityLvl),
      (sortFsx l).filter (fun z => decide (z.security_lvl = v))
        = l.filter (fun z => decide (z.security_lvl = v))) ∧
    (∀ l : List FullSideEffect, ∀ step ∈ partitionSteps (sortFsx l),
      ∀ f ∈ step, f.security_lvl = SecurityLvl.Dirty → step = [f]) := by
  refine ⟨by decide, ?_, fun l v => filter_sortFsx v l, ?_⟩
  · intro l
    refine List.Pairwise.imp ?_ (sortFsx_sorted l)
    intro a b hab had
    have : b.security_lvl.rank ≤ a.security_lvl.rank := hab
    rw [had] at this
    exact SecurityLvl.rank_zero_iff.mp (Nat.le_zero.mp this)
  · intro l step hstep f hf hfd
    exact partGo_dirty_singleton (sortFsx l) [] (sortFsx_sorted l)
      (Or.inl (by simp)) step hstep f hf hfd

/-! ### Claim C6: cursor discipline of `update` -/

theorem any_isNone_eq_not_all_isSome (l : List FullSideEffect) :
    l.any (fun f => f.confirmed.isNone) = !l.all (fun f => f.confirmed.isSome) := by
  induction l with
  | nil => rfl
  | cons f fs ih => cases hc : f.confirmed <;> simp [List.any_cons, List.all_cons, ih, hc]

theorem determineSteps_append (done l : List (List FullSideEffect)) (k : Nat)
    (h : ∀ s ∈ done, stepIncomplete s = false) :
    determineSteps k (done ++ l) = determineSteps (k + done.length) l := by
  induction done generalizing k with
  | nil => simp
  | cons d ds ih =>
      have hd : stepIncomplete d = false := h d (List.mem_cons_self d ds)
      rw [List.cons_append, determineSteps]
      simp only [hd, Bool.false_eq_true, if_false]
      rw [ih (k + 1) (fun s hs => h s (List.mem_cons_of_mem d hs))]
      congr 1
      simp only [List.length_cons]
      omega

theorem stepIncomplete_false_of_all_some {s : List FullSideEffect}
    (h : ∀ f ∈ s, f.confirmed.isSome) : stepIncomplete s = false := by
  rw [stepIncomplete, any_isNone_eq_not_all_isSome]
  simp [List.all_eq_true]
  exact h

/-- C6: for an Xtx in `Ready`, `PendingExecution` or `Finished` whose step
vector splits as `done ++ cur :: todo` with the cursor at `cur` (`done`
fully confirmed, `todo` untouched and nonempty — the shape every
reachable Xtx has), `update` advances the cursor exactly when every FSX
of `cur` is confirmed; the new status is `FinishedAllSteps` iff the
incremented cursor reaches the total (i.e. `todo = []`) and `Finished`
otherwise; and the result satisfies `cursor ≤ total` with equality only
at `FinishedAllSteps`. -/
theorem c6_update_cursor_discipline (ctx : LocalXtxCtx)
    (done : List (List FullSideEffect)) (cur : List FullSideEffect)
    (todo : List (List FullSideEffect))
    (h1 : ctx.full_side_effects = done ++ cur :: todo)
    (h2 : ctx.xtx.steps_cnt = (done.length, (done ++ cur :: todo).length))
    (h3 : ctx.xtx.status = CircuitStatus.Ready ∨
      ctx.xtx.status = CircuitStatus.PendingExecution ∨
      ctx.xtx.status = CircuitStatus.Finished)
    (h4 : ∀ s ∈ done, ∀ f ∈ s, f.confirmed.isSome)
    (h5 : ∀ s ∈ todo, s ≠ [] ∧ ∀ f ∈ s, f.confirmed = none)
    (h6 : ∀ d ∈ ctx.insurance_deposits,
      (d : SideEffectId × InsuranceDeposit).2.bonder.isSome) :
    ∃ ctx', update ctx = .ok ((ctx.xtx.status, ctx'.xtx.status), ctx') ∧
      ctx'.xtx.steps_cnt =
        ((if cur.all (fun f => f.confirmed.isSome) then done.length + 1
          else done.length), (done ++ cur :: todo).length) ∧
      (cur.all (fun f => f.confirmed.isSome) = true →
        ((ctx'.xtx.status = CircuitStatus.FinishedAllSteps ↔ todo = []) ∧
          (todo ≠ [] → ctx'.xtx.status = CircuitStatus.Finished))) ∧
      ctx'.xtx.steps_cnt.1 ≤ ctx'.xtx.steps_cnt.2 ∧
      (ctx'.xtx.steps_cnt.1 = ctx'.xtx.steps_cnt.2 →
        ctx'.xtx.status = CircuitStatus.FinishedAllSteps) := by
  have hstep : ctx.full_side_effects[done.length]? = some cur := by
    rw [h1]
    rw [List.getElem?_append_right (Nat.le_refl done.length)]
    simp
  have hdone : ∀ s ∈ done, stepIncomplete s = false := by
    intro s hs
    exact stepIncomplete_false_of_all_some (h4 s hs)
  have hins : ctx.insurance_deposits.any
      (fun d => (d : SideEffectId × InsuranceDeposit).2.bonder.isNone) = false := by
    rw [List.any_eq_false]
    intro d hd
    have hb := h6 d hd
    cases hbo : d.2.bonder with
    | none => rw [hbo] at hb; simp at hb
    | some v => simp [hbo]
  have hlen : (done ++ cur :: todo).length = done.length + 1 + todo.length := by
    simp
    omega
  by_cases hall : cur.all (fun f => f.confirmed.isSome) = true
  · -- every FSX of the current step is confirmed: the cursor advances
    have hany : cur.any (fun f => f.confirmed.isNone) = false := by
      rw [any_isNone_eq_not_all_isSome, hall]
      rfl
    cases htodo : todo with
    | nil =>
        -- the incremented cursor reaches the total: FinishedAllSteps
        subst htodo
        have hupd : update ctx
            = .ok ((ctx.xtx.status, CircuitStatus.FinishedAllSteps),
                { ctx with xtx := { ctx.xtx with
                    steps_cnt := (done.length + 1, done.length + 1)
                    status := CircuitStatus.FinishedAllSteps } }) := by
          rcases h3 with hs | hs | hs <;>
            simp [update, hs, get_current_step_fsx, hstep, hany, h2]
        refine ⟨{ ctx with xtx := { ctx.xtx with
            steps_cnt := (done.length + 1, done.length + 1)
            status := CircuitStatus.FinishedAllSteps } }, ?_, ?_, ?_, ?_, ?_⟩ <;>
          first
            | exact hupd
            | simp [hall]
    | cons t ts =>
        subst htodo
        have htne := (h5 t (List.mem_cons_self t ts)).1
        have htnone := (h5 t (List.mem_cons_self t ts)).2
        have htinc : stepIncomplete t = true := by
          cases t with
          | nil => exact absurd rfl htne
          | cons f fs =>
              have : f.confirmed = none := htnone f (List.mem_cons_self f fs)
              simp [stepIncomplete, List.any_cons, this]
        have htsome : t.any (fun f => f.confirmed.isSome) = false := by
          rw [List.any_eq_false]
          intro f hf
          rw [htnone f hf]
          simp
        have hns : determine_xtx_status (done ++ cur :: t :: ts)
            ctx.insurance_deposits = CircuitStatus.Finished := by
          rw [determine_xtx_status]
          simp only [hins, Bool.false_eq_true, if_false]
          rw [determineSteps_append done _ 0 hdone]
          rw [determineSteps]
          have hcuri : stepIncomplete cur = false := by
            rw [stepIncomplete, hany]
          simp only [hcuri, Bool.false_eq_true, if_false]
          rw [determineSteps]
          simp only [htinc, if_true]
          simp [htsome]
        have hne : ¬ (done.length + 1 = (done ++ cur :: t :: ts).length) := by
          simp
        have hns' : determine_xtx_status ctx.full_side_effects
            ctx.insurance_deposits = CircuitStatus.Finished := by
          rw [h1]
          exact hns
        have hupd : update ctx
            = .ok ((ctx.xtx.status, CircuitStatus.Finished),
                { ctx with xtx := { ctx.xtx with
                    steps_cnt := (done.length + 1, (done ++ cur :: t :: ts).length)
                    status := CircuitStatus.Finished } }) := by
          rcases h3 with hs | hs | hs <;>
            simp [update, hs, get_current_step_fsx, hstep, hany, h2, hne, hns']
        refine ⟨{ ctx with xtx := { ctx.xtx with
            steps_cnt := (done.length + 1, (done ++ cur :: t :: ts).length)
            status := CircuitStatus.Finished } }, hupd, ?_, ?_, ?_, ?_⟩
        · simp [hall]
        · intro _
          refine ⟨⟨fun h => CircuitStatus.noConfusion h, fun h => ?_⟩, fun _ => rfl⟩
          exact absurd h (List.cons_ne_nil t ts)
        · simp
        · intro h
          exfalso
          simp at h
  · -- the current step has an unconfirmed FSX: the cursor stays put
    have hallf : cur.all (fun f => f.confirmed.isSome) = false :=
      Bool.not_eq_true _ ▸ (Bool.eq_false_iff.mpr (fun h => hall h))
    have hany : cur.any (fun f => f.confirmed.isNone) = true := by
      rw [any_isNone_eq_not_all_isSome, hallf]
      rfl
    have hupd : update ctx
        = .ok ((ctx.xtx.status,
              determine_xtx_status ctx.full_side_effects ctx.insurance_deposits),
            { ctx with xtx := { ctx.xtx with
                status := determine_xtx_status ctx.full_side_effects
                  ctx.insurance_deposits } }) := by
      rcases h3 with hs | hs | hs <;>
        simp [update, hs, get_current_step_fsx, hstep, hany, h2]
    refine ⟨{ ctx with xtx := { ctx.xtx with
        status := determine_xtx_status ctx.full_side_effects
          ctx.insurance_deposits } }, ?_, ?_, ?_, ?_, ?_⟩ <;>
      first
        | exact hupd
        | (simp [hallf, h2, hlen] <;> omega)

/-- `fsxA` carrying its confirmation. -/
def fsxAConfirmed : FullSideEffect := { fsxA with confirmed := some confA }

/-- A two-step context sitting at the first step, whose current step is
fully confirmed and whose second step is untouched. -/
def c6Ctx : LocalXtxCtx :=
  { local_state := 0
    xtx_id := 7
    xtx :=
      { requester := 1
        timeouts_at := 101
        delay_steps_at := none
        status := CircuitStatus.Ready
        steps_cnt := (0, 2)
        total_reward := some 0 }
    insurance_deposits := []
    full_side_effects := [[fsxAConfirmed], [fsxA]] }

/-- Witness for C6: on the concrete two-step context the hypotheses hold
and `update` advances the cursor, landing on `Finished` with
`cursor = 1 < 2 = total`. -/
theorem c6_update_cursor_discipline_witness :
    (c6Ctx.full_side_effects = [] ++ [fsxAConfirmed] :: [[fsxA]] ∧
      c6Ctx.xtx.steps_cnt = ((0 : Nat), ([] ++ [fsxAConfirmed] :: [[fsxA]]).length) ∧
      c6Ctx.xtx.status = CircuitStatus.Ready) ∧
    (∃ ctx', update c6Ctx = .ok ((c6Ctx.xtx.status, ctx'.xtx.status), ctx') ∧
      ctx'.xtx.steps_cnt =
        ((if [fsxAConfirmed].all (fun f => f.confirmed.isSome) then
            (List.length ([] : List (List FullSideEffect))) + 1
          else List.length ([] : List (List FullSideEffect))),
          ([] ++ [fsxAConfirmed] :: [[fsxA]]).length) ∧
      ([fsxAConfirmed].all (fun f => f.confirmed.isSome) = true →
        ((ctx'.xtx.status = CircuitStatus.FinishedAllSteps ↔ ([[fsxA]] : List (List FullSideEffect)) = []) ∧
          (([[fsxA]] : List (List FullSideEffect)) ≠ [] → ctx'.xtx.status = CircuitStatus.Finished))) ∧
      ctx'.xtx.steps_cnt.1 ≤ ctx'.xtx.steps_cnt.2 ∧
      (ctx'.xtx.steps_cnt.1 = ctx'.xtx.steps_cnt.2 →
        ctx'.xtx.status = CircuitStatus.FinishedAllSteps)) :=
  ⟨⟨by decide, by decide, by decide⟩,
    c6_update_cursor_discipline c6Ctx [] [fsxAConfirmed] [[fsxA]]
      (by decide) (by decide) (by decide) (by decide) (by decide) (by decide)⟩

/-! ### Claim C9: optional insurance handling in `validate` -/

theorem mem_sortFsxAux {a : FullSideEffect} (l : List FullSideEffect) :
    ∀ acc, a ∈ sortFsxAux l acc ↔ a ∈ l ∨ a ∈ acc := by
  induction l with
  | nil => intro acc; simp [sortFsxAux]
  | cons x xs ih =>
      intro acc
      rw [sortFsxAux, ih (sinsert x acc)]
      simp [mem_sinsert]
      tauto

theorem mem_sortFsx {a : FullSideEffect} {l : List FullSideEffect} :
    a ∈ sortFsx l ↔ a ∈ l := by
  rw [sortFsx, mem_sortFsxAux l []]
  simp

theorem flatten_partGo (l : List FullSideEffect) :
    ∀ cur, (partGo cur l).flatten = cur ++ l := by
  induction l with
  | nil => intro cur; simp [partGo]
  | cons f fs ih =>
      intro cur
      rw [partGo]
      by_cases hc : f.security_lvl ≠ SecurityLvl.Dirty ∨ cur = []
      · simp only [hc, if_pos]
        rw [ih (cur ++ [f])]
        simp
      · simp only [hc, if_neg, if_false]
        rw [List.flatten_cons, ih [f]]
        simp

theorem flatten_partitionSteps (l : List FullSideEffect) :
    (partitionSteps l).flatten = l := by
  rw [partitionSteps, flatten_partGo l []]
  rfl

theorem validateLoop_error_of_prize_mismatch (env : Env) (requester : Nat) :
    ∀ (sfxs : List SideEffect),
      (∃ s ∈ sfxs, ∃ ir : Nat × Nat,
        s.optional_insurance = some ir ∧ s.prize ≠ ir.2) →
      ∃ e, validateLoop env requester sfxs = .error e := by
  intro sfxs
  induction sfxs with
  | nil => rintro ⟨s, hs, _⟩; cases hs
  | cons s₀ rest ih =>
      rintro ⟨s, hs, ir, hins, hne⟩
      rw [validateLoop]
      by_cases hknown : s₀.target ∈ env.known_gateways
      · rw [if_pos hknown]
        by_cases hargs : env.args_valid s₀
        · rw [if_pos hargs]
          rcases List.mem_cons.mp hs with rfl | hsrest
          · obtain ⟨i, r⟩ := ir
            rw [hins]
            simp only []
            rw [if_pos (show s.prize ≠ r from hne)]
            exact ⟨_, rfl⟩
          · have ⟨e, he⟩ := ih ⟨s, hsrest, ir, hins, hne⟩
            cases hoi : s₀.optional_insurance with
            | some p =>
                obtain ⟨i, r⟩ := p
                simp only []
                by_cases hp : s₀.prize ≠ r
                · rw [if_pos hp]
                  exact ⟨_, rfl⟩
                · rw [if_neg hp]
                  cases hh : env.finalized_height s₀.target with
                  | none => exact ⟨_, rfl⟩
                  | some ht =>
                      simp only []
                      rw [he]
                      exact ⟨e, rfl⟩
            | none =>
                simp only []
                cases hh : env.finalized_height s₀.target with
                | none => exact ⟨_, rfl⟩
                | some ht =>
                    simp only []
                    rw [he]
                    exact ⟨e, rfl⟩
        · rw [if_neg hargs]
          exact ⟨_, rfl⟩
      · rw [if_neg hknown]
        exact ⟨_, rfl⟩

theorem validateLoop_insured_admitted (env : Env) (requester : Nat) :
    ∀ (sfxs : List SideEffect) fsxs deps,
      validateLoop env requester sfxs = .ok (fsxs, deps) →
      ∀ s ∈ sfxs, ∀ ins rew, s.optional_insurance = some (ins, rew) →
        (∃ h, (⟨s, none, SecurityLvl.Optimistic, h⟩ : FullSideEffect) ∈ fsxs) ∧
        ∃ d, (s.generate_id, d) ∈ deps ∧ d.insurance = ins ∧ d.reward = rew := by
  intro sfxs
  induction sfxs with
  | nil => intro fsxs deps _ s hs; cases hs
  | cons s₀ rest ih =>
      intro fsxs deps hok s hs ins rew hins
      rw [validateLoop] at hok
      by_cases hknown : s₀.target ∈ env.known_gateways
      · rw [if_pos hknown] at hok
        by_cases hargs : env.args_valid s₀
        · rw [if_pos hargs] at hok
          cases hoi : s₀.optional_insurance with
          | some p =>
              obtain ⟨i, r⟩ := p
              rw [hoi] at hok
              simp only [] at hok
              by_cases hp : s₀.prize ≠ r
              · rw [if_pos hp] at hok
                cases hok
              · rw [if_neg hp] at hok
                cases hh : env.finalized_height s₀.target with
                | none =>
                    rw [hh] at hok
                    simp only [] at hok
                    cases hok
                | some ht =>
                    rw [hh] at hok
                    simp only [] at hok
                    cases hrec : validateLoop env requester rest with
                    | error e =>
                        rw [hrec] at hok
                        simp only [] at hok
                        cases hok
                    | ok pr =>
                        obtain ⟨fsxs', deps'⟩ := pr
                        rw [hrec] at hok
                        simp only [] at hok
                        injection hok with hok
                        injection hok with hf hd
                        subst hf
                        subst hd
                        rcases List.mem_cons.mp hs with rfl | hsrest
                        · rw [hoi] at hins
                          injection hins with hins
                          injection hins with h1 h2
                          subst h1
                          subst h2
                          exact ⟨⟨ht, List.mem_cons_self _ _⟩,
                            ⟨_, List.mem_cons_self _ _, rfl, rfl⟩⟩
                        · have ⟨⟨h', hmem⟩, d, hdmem, hdi, hdr⟩ :=
                            ih fsxs' deps' hrec s hsrest ins rew hins
                          exact ⟨⟨h', List.mem_cons_of_mem _ hmem⟩,
                            ⟨d, List.mem_cons_of_mem _ hdmem, hdi, hdr⟩⟩
          | none =>
              rw [hoi] at hok
              simp only [] at hok
              cases hh : env.finalized_height s₀.target with
              | none =>
                  rw [hh] at hok
                  simp only [] at hok
                  cases hok
              | some ht =>
                  rw [hh] at hok
                  simp only [] at hok
                  cases hrec : validateLoop env requester rest with
                  | error e =>
                      rw [hrec] at hok
                      simp only [] at hok
                      cases hok
                  | ok pr =>
                      obtain ⟨fsxs', deps'⟩ := pr
                      rw [hrec] at hok
                      simp only [] at hok
                      injection hok with hok
                      injection hok with hf hd
                      subst hf
                      subst hd
                      rcases List.mem_cons.mp hs with rfl | hsrest
                      · rw [hoi] at hins
                        cases hins
                      · have ⟨⟨h', hmem⟩, d, hdmem, hdi, hdr⟩ :=
                          ih fsxs' deps' hrec s hsrest ins rew hins
                        exact ⟨⟨h', List.mem_cons_of_mem _ hmem⟩,
                          ⟨d, hdmem, hdi, hdr⟩⟩
        · rw [if_neg hargs] at hok
          cases hok
      · rw [if_neg hknown] at hok
        cases hok

/-- C9: during validation, a side effect carrying the optional insurance
pair `(insurance, reward)` with `prize ≠ reward` makes the whole
`on_extrinsic_trigger` submission fail with no state change; when
`prize = reward` and validation succeeds, the side effect is admitted
with security level `Optimistic` and an insurance deposit recording the
pair is pushed for it. -/
theorem c9_insurance_prize_discipline :
    (∀ (env : Env) (requester : Nat) (sfxs : List SideEffect) (fee : Nat)
        (st : CircuitStorage),
      (∃ s ∈ sfxs, ∃ ir : Nat × Nat,
        s.optional_insurance = some ir ∧ s.prize ≠ ir.2) →
      ∃ e, onExtrinsicTrigger env requester sfxs fee st = (.error e, st)) ∧
    (∀ (env : Env) (requester : Nat) (sfxs : List SideEffect) steps deps,
      validate env requester sfxs = .ok (steps, deps) →
      ∀ s ∈ sfxs, ∀ ins rew, s.optional_insurance = some (ins, rew) →
        (∃ f ∈ steps.flatten, f.input = s ∧
          f.security_lvl = SecurityLvl.Optimistic) ∧
        ∃ d, (s.generate_id, d) ∈ deps ∧ d.insurance = ins ∧ d.reward = rew) := by
  constructor
  · intro env requester sfxs fee st hmis
    obtain ⟨e, he⟩ := validateLoop_error_of_prize_mismatch env requester sfxs hmis
    refine ⟨.err "SideEffectsValidationFailed", ?_⟩
    rw [onExtrinsicTrigger]
    simp [setup, validate, he]
  · intro env requester sfxs steps deps hok s hs ins rew hins
    rw [validate] at hok
    cases hloop : validateLoop env requester sfxs with
    | error e =>
        rw [hloop] at hok
        simp only [] at hok
        cases hok
    | ok pr =>
        obtain ⟨fsxs, deps'⟩ := pr
        rw [hloop] at hok
        simp only [] at hok
        injection hok with hok
        injection hok with hsteps hdeps
        subst hsteps
        subst hdeps
        have ⟨⟨h', hmem⟩, hdep⟩ :=
          validateLoop_insured_admitted env requester sfxs fsxs deps' hloop
            s hs ins rew hins
        refine ⟨⟨⟨s, none, SecurityLvl.Optimistic, h'⟩, ?_, rfl, rfl⟩, hdep⟩
        rw [flatten_partitionSteps]
        exact mem_sortFsx.mpr hmem

/-- An SFX whose declared insurance reward `4` differs from its
`prize = 3`. -/
def c9BadSfx : SideEffect :=
  { target := 2, prize := 3, encoded_action := 9,
    optional_insurance := some (5, 4), nonce := 9 }

/-- Witness for C9: the mismatching SFX makes `on_extrinsic_trigger`
fail with no state change, and the matching `s4C` is admitted as
`Optimistic` with its `(5, 3)` deposit recorded. -/
theorem c9_insurance_prize_discipline_witness :
    ((∃ s ∈ [c9BadSfx], ∃ ir : Nat × Nat,
        s.optional_insurance = some ir ∧ s.prize ≠ ir.2) ∧
      ∃ e, onExtrinsicTrigger demoEnv 1 [c9BadSfx] 0 CircuitStorage.empty
        = (.error e, CircuitStorage.empty)) ∧
    (validate demoEnv 1 [s4C]
        = .ok
            ([[{ input := s4C, confirmed := none,
                  security_lvl := SecurityLvl.Optimistic,
                  submission_target_height := 5 }]],
              [(s4C.generate_id,
                { insurance := 5, reward := 3, bonded_amount := 0,
                  bonder := none, requester := 1, requested_at := 1 })]) ∧
      ((∃ f ∈ ([[({ input := s4C, confirmed := none,
                    security_lvl := SecurityLvl.Optimistic,
                    submission_target_height := 5 } : FullSideEffect)]] :
                List (List FullSideEffect)).flatten,
          f.input = s4C ∧ f.security_lvl = SecurityLvl.Optimistic) ∧
        ∃ d, (s4C.generate_id, d) ∈
            [(s4C.generate_id,
              ({ insurance := 5, reward := 3, bonded_amount := 0,
                 bonder := none, requester := 1,
                 requested_at := 1 } : InsuranceDeposit))] ∧
          d.insurance = 5 ∧ d.reward = 3)) :=
  ⟨⟨⟨c9BadSfx, by decide, (5, 4), by decide, by decide⟩,
      c9_insurance_prize_discipline.1 demoEnv 1 [c9BadSfx] 0 CircuitStorage.empty
        ⟨c9BadSfx, by decide, (5, 4), by decide, by decide⟩⟩,
    ⟨by decide,
      c9_insurance_prize_discipline.2 demoEnv 1 [s4C] _ _ (by decide)
        s4C (by decide) 5 3 (by decide)⟩⟩

/-! ### Loading an Xtx through `setup` -/

theorem collectDeposits_ok (st : CircuitStorage) (id : Nat) :
    ∀ sids : List SideEffectId,
      (∀ sid ∈ sids, (lookupKV st.insuranceDeposits (id, sid)).isSome) →
      ∃ dl, collectDeposits st id sids = .ok dl := by
  intro sids
  induction sids with
  | nil => intro _; exact ⟨[], rfl⟩
  | cons sid rest ih =>
      intro h
      have hsid := h sid (List.mem_cons_self sid rest)
      obtain ⟨dep, hdep⟩ := Option.isSome_iff_exists.mp hsid
      obtain ⟨dl, hdl⟩ := ih (fun x hx => h x (List.mem_cons_of_mem sid hx))
      refine ⟨(sid, dep) :: dl, ?_⟩
      rw [collectDeposits, hdep, hdl]

/-- Loading an existing Xtx with a `Ready`, `PendingExecution` or
`RevertTimedOut` entry status succeeds whenever the artifacts are in
place (no status check applies to these entries). -/
theorem setup_loads (env : Env) (cs : CircuitStatus) (requester reward id : Nat)
    (st : CircuitStorage) (xtx : XExecSignal)
    (steps : List (List FullSideEffect)) (ls : LocalState)
    (hcs : cs = CircuitStatus.Ready ∨ cs = CircuitStatus.PendingExecution ∨
      cs = CircuitStatus.RevertTimedOut)
    (hx : lookupKV st.xExecSignals id = some xtx)
    (hf : lookupKV st.fullSideEffects id = some steps)
    (hl : lookupKV st.localXtxStates id = some ls)
    (hins : ∀ sid ∈ lookupD st.xtxInsuranceLinks id [],
      (lookupKV st.insuranceDeposits (id, sid)).isSome) :
    ∃ dl, setup env cs requester reward (some id) st
      = .ok
          { local_state := ls
            xtx_id := id
            xtx := xtx
            insurance_deposits := dl
            full_side_effects := steps } := by
  obtain ⟨dl, hdl⟩ :=
    collectDeposits_ok st id (lookupD st.xtxInsuranceLinks id []) hins
  refine ⟨dl, ?_⟩
  rcases hcs with hcs | hcs | hcs <;>
    (subst hcs; simp [setup, hx, hf, hl, hdl])

/-! ### Claim C10: unchecked cursor indexing in `confirm` -/

/-- C10: a stored Xtx whose cursor equals the number of steps — the shape
`FinishedAllSteps` leaves behind, since its record is never deleted —
is still accepted by `setup` under the `PendingExecution` entry, and
`confirm_side_effect` then panics indexing `full_side_effects[cursor]`
out of bounds instead of returning a typed error. -/
theorem c10_confirm_panics_after_finished (env : Env)
    (relayer xtx_id : Nat) (sfx : SideEffect) (conf : ConfirmedSideEffect)
    (st : CircuitStorage) (xtx : XExecSignal)
    (steps : List (List FullSideEffect)) (ls : LocalState)
    (hx : lookupKV st.xExecSignals xtx_id = some xtx)
    (hf : lookupKV st.fullSideEffects xtx_id = some steps)
    (hl : lookupKV st.localXtxStates xtx_id = some ls)
    (hins : ∀ sid ∈ lookupD st.xtxInsuranceLinks xtx_id [],
      (lookupKV st.insuranceDeposits (xtx_id, sid)).isSome)
    (hcursor : xtx.steps_cnt.1 = steps.length) :
    confirmSideEffect env relayer xtx_id sfx conf st
      = (.error (.crash "index out of bounds"), st) := by
  obtain ⟨dl, hsetup⟩ := setup_loads env CircuitStatus.PendingExecution relayer 0
    xtx_id st xtx steps ls (Or.inr (Or.inl rfl)) hx hf hl hins
  rw [confirmSideEffect, hsetup]
  simp only []
  have hoob : steps[xtx.steps_cnt.1]? = none := by
    rw [hcursor]
    exact List.getElem?_eq_none (Nat.le_refl steps.length)
  rw [confirmStep]
  simp only [hoob]

/-- Storage after the happy-path trace of C1: Xtx `7` finished, cursor at
`(1, 1)`, record retained. -/
def finishedSt : CircuitStorage :=
  { xExecSignals := [(7, { readyXtx with
      status := CircuitStatus.FinishedAllSteps, steps_cnt := (1, 1) })]
    fullSideEffects := [(7, [[fsxAConfirmed]])]
    localXtxStates := [(7, 0)]
    insuranceDeposits := []
    xtxInsuranceLinks := []
    localSideEffectToXtxIdLinks := []
    activeXExecSignalsTimingLinks := []
    signalQueue := [] }

/-- Witness for C10: on the concrete finished Xtx the hypotheses hold and
the call panics with the out-of-bounds crash, leaving the state
untouched. -/
theorem c10_confirm_panics_after_finished_witness :
    (lookupKV finishedSt.xExecSignals 7
        = some { readyXtx with
            status := CircuitStatus.FinishedAllSteps, steps_cnt := (1, 1) } ∧
      lookupKV finishedSt.fullSideEffects 7 = some [[fsxAConfirmed]]) ∧
    confirmSideEffect demoEnv 2 7 sfxA confA finishedSt
      = (.error (.crash "index out of bounds"), finishedSt) :=
  ⟨⟨by decide, by decide⟩,
    c10_confirm_panics_after_finished demoEnv 2 7 sfxA confA finishedSt
      { readyXtx with status := CircuitStatus.FinishedAllSteps, steps_cnt := (1, 1) }
      [[fsxAConfirmed]] 0 (by decide) (by decide) (by decide) (by decide) (by decide)⟩

/-! ### Claim C7: double confirmation -/

theorem confirmAt_error (sid : SideEffectId) (conf : ConfirmedSideEffect) :
    ∀ l : List FullSideEffect,
      (∀ f, l.find? (fun g => decide (g.input.generate_id = sid)) = some f →
        f.confirmed.isSome) →
      ∃ msg, confirmAt sid conf l = .error (.err msg) := by
  intro l
  induction l with
  | nil =>
      intro _
      exact ⟨"Unable to find matching Side Effect in given Xtx to confirm", rfl⟩
  | cons f rest ih =>
      intro h
      by_cases hid : f.input.generate_id = sid
      · have hfind : (f :: rest).find?
            (fun g => decide (g.input.generate_id = sid)) = some f :=
          List.find?_cons_of_pos _ (by simp [hid])
        have hsome := h f hfind
        have hnone : f.confirmed.isNone = false := by
          cases hc : f.confirmed with
          | none => rw [hc] at hsome; simp at hsome
          | some c => simp
        rw [confirmAt, if_pos hid]
        simp only [hnone, Bool.false_eq_true, if_false]
        exact ⟨_, rfl⟩
      · have hfind : (f :: rest).find?
            (fun g => decide (g.input.generate_id = sid))
              = rest.find? (fun g => decide (g.input.generate_id = sid)) :=
          List.find?_cons_of_neg _ (by simp [hid])
        obtain ⟨msg, hmsg⟩ := ih (fun g hg => h g (hfind ▸ hg))
        rw [confirmAt, if_neg hid, hmsg]
        exact ⟨msg, rfl⟩

theorem confirm_order_error (sfx : SideEffect) (conf : ConfirmedSideEffect)
    (l : List FullSideEffect)
    (h : ∀ f, l.find? (fun g => decide (g.input.generate_id = sfx.generate_id))
      = some f → f.confirmed.isSome) :
    ∃ msg, confirm_order sfx conf l = .error (.err msg) := by
  cases l with
  | nil => exact ⟨"Xtx has an empty single step.", rfl⟩
  | cons f rest =>
      obtain ⟨msg, hmsg⟩ := confirmAt_error sfx.generate_id conf (f :: rest) h
      rw [confirm_order]
      simp only [List.isEmpty_cons, Bool.false_eq_true, if_false]
      exact ⟨msg, hmsg⟩

/-- C7 amended: when the Xtx still has a current step (`cursor < number of
steps`) and that step contains no **unconfirmed** FSX matching the side
effect — which is the state after the first successful confirmation,
unless the bundle contained a duplicate of the SFX in the same step —
the repeated `confirm_side_effect` call returns a typed error before any
storage write, leaving every store exactly as it was.  (When the first
confirmation completed all steps, the repeated call instead panics out of
bounds: see the counterexample trace and claim C10.) -/
theorem c7_second_confirmation_rejected_before_write (env : Env)
    (relayer xtx_id : Nat) (sfx : SideEffect) (conf : ConfirmedSideEffect)
    (st : CircuitStorage) (xtx : XExecSignal)
    (steps : List (List FullSideEffect)) (ls : LocalState)
    (s : List FullSideEffect)
    (hx : lookupKV st.xExecSignals xtx_id = some xtx)
    (hf : lookupKV st.fullSideEffects xtx_id = some steps)
    (hl : lookupKV st.localXtxStates xtx_id = some ls)
    (hins : ∀ sid ∈ lookupD st.xtxInsuranceLinks xtx_id [],
      (lookupKV st.insuranceDeposits (xtx_id, sid)).isSome)
    (hstep : steps[xtx.steps_cnt.1]? = some s)
    (hdone : ∀ f, s.find?
        (fun g => decide (g.input.generate_id = sfx.generate_id)) = some f →
      f.confirmed.isSome) :
    ∃ msg, confirmSideEffect env relayer xtx_id sfx conf st
      = (.error (.err msg), st) := by
  obtain ⟨dl, hsetup⟩ := setup_loads env CircuitStatus.PendingExecution relayer 0
    xtx_id st xtx steps ls (Or.inr (Or.inl rfl)) hx hf hl hins
  obtain ⟨msg, hmsg⟩ := confirm_order_error sfx conf s hdone
  refine ⟨msg, ?_⟩
  rw [confirmSideEffect, hsetup]
  simp only []
  rw [confirmStep]
  simp only [hstep, hmsg]

/-- The state after admitting `[sfxA]`: Xtx `7` is `Ready` with one
single-FSX step, no signal queued. -/
def c7ReadySt : CircuitStorage := { killSt with signalQueue := [] }

/-- C7 counterexample: after a first successful confirmation that drives
the single-step Xtx to `FinishedAllSteps`, the repeated call does
**not** return an error and unchanged state in the sense of the claim: it
panics out of bounds (`ExecError.crash`, a Rust panic, not a typed
rejection). -/
theorem c7_second_confirmation_counterexample :
    (confirmSideEffect demoEnv 2 7 sfxA confA c7ReadySt).1 = .ok () ∧
    confirmSideEffect demoEnv 2 7 sfxA confA
        (confirmSideEffect demoEnv 2 7 sfxA confA c7ReadySt).2
      = (.error (.crash "index out of bounds"),
          (confirmSideEffect demoEnv 2 7 sfxA confA c7ReadySt).2) := by
  decide

/-- A second, still unconfirmed side effect sharing the step with
`fsxA`. -/
def fsxB : FullSideEffect :=
  { input := { target := 2, prize := 0, encoded_action := 12,
               optional_insurance := none, nonce := 5 }
    confirmed := none
    security_lvl := SecurityLvl.Escrowed
    submission_target_height := 5 }

/-- A mid-execution state: step 0 of 1 holds the confirmed `fsxA` and the
unconfirmed `fsxB`, so the cursor has not advanced. -/
def c7MidSt : CircuitStorage :=
  { xExecSignals := [(7, { readyXtx with
      status := CircuitStatus.PendingExecution, steps_cnt := (0, 1) })]
    fullSideEffects := [(7, [[fsxAConfirmed, fsxB]])]
    localXtxStates := [(7, 0)]
    insuranceDeposits := []
    xtxInsuranceLinks := []
    localSideEffectToXtxIdLinks := []
    activeXExecSignalsTimingLinks := [(7, 101)]
    signalQueue := [] }

/-- Witness for the amended C7: on the mid-execution state the repeated
confirmation of `sfxA` returns a typed error with the storage untouched. -/
theorem c7_second_confirmation_rejected_witness :
    ((([[fsxAConfirmed, fsxB]] : List (List FullSideEffect))[(0 : Nat)]?
        = some [fsxAConfirmed, fsxB]) ∧
      lookupKV c7MidSt.fullSideEffects 7 = some [[fsxAConfirmed, fsxB]]) ∧
    ∃ msg, confirmSideEffect demoEnv 2 7 sfxA confA c7MidSt
      = (.error (.err msg), c7MidSt) :=
  ⟨⟨by decide, by decide⟩,
    c7_second_confirmation_rejected_before_write demoEnv 2 7 sfxA confA c7MidSt
      { readyXtx with status := CircuitStatus.PendingExecution, steps_cnt := (0, 1) }
      [[fsxAConfirmed, fsxB]] 0 [fsxAConfirmed, fsxB]
      (by decide) (by decide) (by decide) (by decide) (by decide) (by decide)⟩

/-! ### Claim C4: the timeout sweep -/

theorem kill_revert_timed_out (env : Env) (ctx : LocalXtxCtx)
    (st : CircuitStorage) (s : List FullSideEffect)
    (hcur : ctx.full_side_effects[ctx.xtx.steps_cnt.1]? = some s) :
    kill env ctx CircuitStatus.RevertTimedOut st
      = .ok
          { st with
            xExecSignals := insertKV st.xExecSignals ctx.xtx_id
              { ctx.xtx with status := CircuitStatus.RevertTimedOut }
            activeXExecSignalsTimingLinks :=
              removeKV st.activeXExecSignalsTimingLinks ctx.xtx_id } := by
  rw [kill]
  simp [square_up, get_current_step_fsx, hcur, applyExec]

theorem eq_of_mem_nodup_keys {l : List (Nat × Nat)}
    (h : (l.map Prod.fst).Nodup) {a b : Nat × Nat}
    (ha : a ∈ l) (hb : b ∈ l) (hfst : a.1 = b.1) : a = b := by
  induction l with
  | nil => cases ha
  | cons x xs ih =>
      rw [List.map_cons, List.nodup_cons] at h
      obtain ⟨hx, hxs⟩ := h
      rcases List.mem_cons.mp ha with rfl | ha' <;>
        rcases List.mem_cons.mp hb with rfl | hb'
      · rfl
      · exfalso
        apply hx
        rw [hfst]
        exact List.mem_map_of_mem Prod.fst hb'
      · exfalso
        apply hx
        rw [← hfst]
        exact List.mem_map_of_mem Prod.fst ha'
      · exact ih hxs ha' hb'

/-- C4: on a block `n` that is a multiple of `XtxTimeoutCheckInterval`
(with an empty signal queue and consistent stores), the sweep reverts at
most one Xtx, namely the first timing-link entry with `timeouts_at ≤ n`
(so equality at the boundary does trigger): its persisted status becomes
`RevertTimedOut` and its link is removed, and nothing else changes; when
no entry has timed out the storage is untouched; an entry with
`timeouts_at > n` is never touched. -/
theorem c4_timeout_sweep_reverts_first_match (fuel n : Nat) (env : Env)
    (st : CircuitStorage)
    (hq : st.signalQueue = [])
    (hmod : n % env.xtx_timeout_check_interval = 0)
    (hcons : ∀ e ∈ st.activeXExecSignalsTimingLinks,
      ∃ xtx steps ls, lookupKV st.xExecSignals (e : Nat × Nat).1 = some xtx ∧
        lookupKV st.fullSideEffects e.1 = some steps ∧
        lookupKV st.localXtxStates e.1 = some ls ∧
        xtx.steps_cnt.1 < steps.length ∧
        ∀ sid ∈ lookupD st.xtxInsuranceLinks e.1 [],
          (lookupKV st.insuranceDeposits (e.1, sid)).isSome)
    (hnodup : (st.activeXExecSignalsTimingLinks.map Prod.fst).Nodup) :
    (st.activeXExecSignalsTimingLinks.find? (fun e => decide (e.2 ≤ n)) = none →
      onInitialize fuel env n st = some (.ok st)) ∧
    (∀ id t,
      st.activeXExecSignalsTimingLinks.find? (fun e => decide (e.2 ≤ n))
        = some (id, t) →
      t ≤ n ∧
      ∃ xtx, lookupKV st.xExecSignals id = some xtx ∧
        onInitialize fuel env n st
          = some (.ok
              { st with
                xExecSignals := insertKV st.xExecSignals id
                  { xtx with status := CircuitStatus.RevertTimedOut }
                activeXExecSignalsTimingLinks :=
                  removeKV st.activeXExecSignalsTimingLinks id })) ∧
    (∀ id t, (id, t) ∈ st.activeXExecSignalsTimingLinks → n < t →
      ∀ res, onInitialize fuel env n st = some (.ok res) →
        lookupKV res.xExecSignals id = lookupKV st.xExecSignals id ∧
        (id, t) ∈ res.activeXExecSignalsTimingLinks) := by
  have hpsq : processSignalQueue fuel env st = some (.ok st) := by
    simp [processSignalQueue, hq]
  have hsweep₁ :
      st.activeXExecSignalsTimingLinks.find? (fun e => decide (e.2 ≤ n)) = none →
      onInitialize fuel env n st = some (.ok st) := by
    intro hfind
    rw [onInitialize, hpsq]
    simp only []
    rw [timeoutSweep, if_pos hmod, hfind]
  have hsweep₂ : ∀ id t,
      st.activeXExecSignalsTimingLinks.find? (fun e => decide (e.2 ≤ n))
        = some (id, t) →
      t ≤ n ∧
      ∃ xtx, lookupKV st.xExecSignals id = some xtx ∧
        onInitialize fuel env n st
          = some (.ok
              { st with
                xExecSignals := insertKV st.xExecSignals id
                  { xtx with status := CircuitStatus.RevertTimedOut }
                activeXExecSignalsTimingLinks :=
                  removeKV st.activeXExecSignalsTimingLinks id }) := by
    intro id t hfind
    have hle : t ≤ n := by
      have := List.find?_some hfind
      simpa using this
    have hmem : (id, t) ∈ st.activeXExecSignalsTimingLinks :=
      List.mem_of_find?_eq_some hfind
    obtain ⟨xtx, steps, ls, hx, hf, hl, hcur, hins⟩ := hcons (id, t) hmem
    obtain ⟨dl, hsetup⟩ := setup_loads env CircuitStatus.RevertTimedOut
      env.self_account 0 id st xtx steps ls (Or.inr (Or.inr rfl)) hx hf hl hins
    have hsget : steps[xtx.steps_cnt.1]? = some steps[xtx.steps_cnt.1] :=
      List.getElem?_eq_getElem hcur
    refine ⟨hle, xtx, hx, ?_⟩
    rw [onInitialize, hpsq]
    simp only []
    rw [timeoutSweep, if_pos hmod, hfind]
    simp only []
    have hguard : ¬ (0 > env.deletion_queue_limit) := by omega
    rw [if_neg hguard, hsetup]
    simp only []
    exact congrArg some (kill_revert_timed_out env _ st _ hsget)
  refine ⟨hsweep₁, hsweep₂, ?_⟩
  intro id t hmem hgt res hres
  cases hfind : st.activeXExecSignalsTimingLinks.find? (fun e => decide (e.2 ≤ n)) with
  | none =>
      have := hsweep₁ hfind
      rw [this] at hres
      injection hres with hres
      injection hres with hres
      rw [← hres]
      exact ⟨rfl, hmem⟩
  | some e =>
      obtain ⟨id₀, t₀⟩ := e
      obtain ⟨hle₀, xtx₀, hx₀, heq⟩ := hsweep₂ id₀ t₀ hfind
      rw [heq] at hres
      injection hres with hres
      injection hres with hres
      have hne : id ≠ id₀ := by
        intro hcontra
        have hmem₀ : (id₀, t₀) ∈ st.activeXExecSignalsTimingLinks :=
          List.mem_of_find?_eq_some hfind
        have : (id, t) = (id₀, t₀) :=
          eq_of_mem_nodup_keys hnodup hmem hmem₀ hcontra
        injection this with h1 h2
        omega
      constructor
      · rw [← hres]
        exact lookupKV_insertKV_ne st.xExecSignals _ hne.symm
      · rw [← hres]
        exact mem_removeKV_of_ne hmem hne

/-- A consistent storage whose only Xtx `7` is `Ready` with its timing
link expiring exactly at block `100`. -/
def c4St : CircuitStorage :=
  { xExecSignals := [(7, readyXtx)]
    fullSideEffects := [(7, [[fsxA]])]
    localXtxStates := [(7, 0)]
    insuranceDeposits := []
    xtxInsuranceLinks := []
    localSideEffectToXtxIdLinks := []
    activeXExecSignalsTimingLinks := [(7, 100)]
    signalQueue := [] }

/-- Witness for C4: at block `100` (a multiple of the check interval `10`)
the entry `(7, 100)` — timed out with `timeouts_at = now` exactly — is
found first, and the sweep persists `RevertTimedOut` for Xtx `7` and
drops its timing link. -/
theorem c4_timeout_sweep_reverts_first_match_witness :
    (c4St.signalQueue = [] ∧ 100 % demoEnv.xtx_timeout_check_interval = 0 ∧
      c4St.activeXExecSignalsTimingLinks.find? (fun e => decide (e.2 ≤ 100))
        = some (7, 100)) ∧
    (100 ≤ 100 ∧
      ∃ xtx, lookupKV c4St.xExecSignals 7 = some xtx ∧
        onInitialize 1 demoEnv 100 c4St
          = some (.ok
              { c4St with
                xExecSignals := insertKV c4St.xExecSignals 7
                  { xtx with status := CircuitStatus.RevertTimedOut }
                activeXExecSignalsTimingLinks :=
                  removeKV c4St.activeXExecSignalsTimingLinks 7 })) :=
  ⟨⟨by decide, by decide, by decide⟩,
    (c4_timeout_sweep_reverts_first_match 1 100 demoEnv c4St rfl (by decide)
        (by
          intro e he
          have he' : e = ((7 : Nat), (100 : Nat)) := by
            simpa [c4St] using he
          subst he'
          exact ⟨readyXtx, [[fsxA]], 0, by decide, by decide, by decide,
            by decide, by decide⟩)
        (by decide)).2.1 7 100 (by decide)⟩

end Circuit
